import Mathlib

/-!
Verification of the five-phase school scheduling pipeline
(`create_sections`, `assign_time_slots`, `assign_rooms`,
`solve_student_assignment`, `optimize_section_balance`).

The Rust source is shallowly embedded: each Rust function becomes a Lean
function over plain data (`Nat` for the `u8`/`u32` counters — none of the
loops below can overflow them on the value ranges the claims quantify over,
as every counter is bounded by a list length or by a constant below 2^32);
`HashSet`/`HashMap` values that are used only through membership and keyed
lookup become `List`s and functions; the one place where Rust's
hash-randomized `HashMap` *iteration order* is observable
(`assign_time_slots`, `optimize_section_balance`) is made explicit as a
`keyOrder` parameter so that the dependence of the output on that order can
be stated and proved.
-/

namespace SchoolSched

/-- A weekly time period, the `(day, slot)` pair of `types/period.rs`. -/
abbrev Period := Nat × Nat

/-- `types/student.rs::Student`. -/
structure Student where
  id : String
  sname : String
  grade : Nat
  required_courses : List String
  elective_preferences : List String
deriving DecidableEq, Inhabited

/-- `types/teacher.rs::Teacher`. -/
structure Teacher where
  id : String
  tname : String
  subjects : List String
  max_sections : Nat
  unavailable : List Period
deriving DecidableEq

/-- `types/course.rs::Course`. -/
structure Course where
  id : String
  cname : String
  max_students : Nat
  periods_per_week : Nat
  grade_restrictions : Option (List Nat)
  required_features : List String
  sections : Nat
deriving DecidableEq

/-- `types/room.rs::Room`. -/
structure Room where
  id : String
  rname : String
  capacity : Nat
  features : List String
  unavailable : List Period
deriving DecidableEq

/-- `types/section.rs::Section`. -/
structure Section where
  id : String
  course_id : String
  teacher_id : Option String
  room_id : Option String
  periods : List Period
  enrolled_students : List String
  capacity : Nat
deriving DecidableEq, Inhabited

/-- `types/constraint.rs::ScheduleConfig` (the `lunch_periods` field is never
read by the five pipeline phases and is omitted). -/
structure ScheduleConfig where
  periods_per_day : Nat
  days_per_week : Nat
deriving DecidableEq

/-- `types/schedule.rs::UnassignedCourse`. -/
structure UnassignedCourse where
  student_id : String
  course_id : String
  reason : String
deriving DecidableEq

/-- `Course::allows_grade`. -/
def Course.allows_grade (c : Course) (grade : Nat) : Bool :=
  match c.grade_restrictions with
  | some grades => grades.contains grade
  | none => true

/-- `Teacher::can_teach`. -/
def Teacher.can_teach (t : Teacher) (course_id : String) : Bool :=
  t.subjects.contains course_id

/-- `Student::wants_course`. -/
def Student.wants_course (s : Student) (course_id : String) : Bool :=
  s.required_courses.contains course_id || s.elective_preferences.contains course_id

/-- `Student::elective_rank`. -/
def Student.elective_rank (s : Student) (course_id : String) : Option Nat :=
  s.elective_preferences.findIdx? (fun c => c = course_id)

/-- `Section::enrollment`. -/
def Section.enrollment (sec : Section) : Nat :=
  sec.enrolled_students.length

/-- `Section::is_full`. -/
def Section.is_full (sec : Section) : Bool :=
  sec.enrolled_students.length ≥ sec.capacity

/-- `Section::has_student`. -/
def Section.has_student (sec : Section) (student_id : String) : Bool :=
  sec.enrolled_students.contains student_id

/-- `Section::enroll` (push to the back of the roster unless present). -/
def Section.enroll (sec : Section) (student_id : String) : Section :=
  if sec.has_student student_id then sec
  else { sec with enrolled_students := sec.enrolled_students ++ [student_id] }

/-- `Section::unenroll` (`retain(|s| s != student_id)`). -/
def Section.unenroll (sec : Section) (student_id : String) : Section :=
  { sec with enrolled_students := sec.enrolled_students.filter (fun s => s != student_id) }

/-- First element of `l` attaining the minimum of `f`, mirroring Rust's
`Iterator::min_by_key` (which returns the first of several equal minima). -/
def firstMinBy {α : Type} (f : α → Nat) : List α → Option α
  | [] => none
  | x :: xs =>
    match firstMinBy f xs with
    | none => some x
    | some b => if f x ≤ f b then some x else some b

/-- Qualified-teacher list for a course: what `build_teachers_by_course`
stores under that course id (teachers in input-list order). -/
def qualifiedTeachers (teachers : List Teacher) (cid : String) : List Teacher :=
  teachers.filter (fun t => t.subjects.contains cid)

/-- The teacher choice in `create_sections`: qualified teachers still below
their quota, then `min_by_key` over current counts (first minimum wins). -/
def pickTeacher (counts : String → Nat) (qualified : List Teacher) : Option Teacher :=
  firstMinBy (fun t => counts t.id)
    (qualified.filter (fun t => counts t.id < t.max_sections))

/-- The body of `create_sections`' inner loop: build one section of a course
and update the per-teacher section counts. -/
def emitSection (course : Course) (qualified : List Teacher) (counts : String → Nat)
    (section_num : Nat) : Section × (String → Nat) :=
  let base : Section :=
    { id := course.id ++ "-" ++ toString (section_num + 1), course_id := course.id,
      teacher_id := none, room_id := none, periods := [], enrolled_students := [],
      capacity := course.max_students }
  match pickTeacher counts qualified with
  | some t =>
      ({ base with teacher_id := some t.id },
       fun tid => if tid = t.id then counts tid + 1 else counts tid)
  | none => (base, counts)

/-- Inner loop of `create_sections` over the section numbers of one course. -/
def createSectionsAux (course : Course) (qualified : List Teacher) :
    List Nat → (String → Nat) → List Section × (String → Nat)
  | [], counts => ([], counts)
  | k :: ks, counts =>
      let step := emitSection course qualified counts k
      let rest := createSectionsAux course qualified ks step.2
      (step.1 :: rest.1, rest.2)

/-- Outer loop of `create_sections` over the courses, in input order. -/
def createSectionsFrom (teachers : List Teacher) :
    List Course → (String → Nat) → List Section × (String → Nat)
  | [], counts => ([], counts)
  | c :: cs, counts =>
      let step := createSectionsAux c (qualifiedTeachers teachers c.id)
        (List.range c.sections) counts
      let rest := createSectionsFrom teachers cs step.2
      (step.1 ++ rest.1, rest.2)

/-- Phase 1 entry point `create_sections`. -/
def create_sections (courses : List Course) (teachers : List Teacher) : List Section :=
  (createSectionsFrom teachers courses (fun _ => 0)).1

/-- Keyed lookup mirroring a `HashMap` collected from an iterator of
`(id, value)` pairs: on duplicate ids the later entry overwrites the
earlier one. -/
def mapLookup {α : Type} (idOf : α → String) (l : List α) (key : String) : Option α :=
  l.reverse.find? (fun a => idOf a = key)

/-- Mutable tallies of `assign_time_slots`. `teacher_schedules` and the
grade tracker are `HashMap`s used only through keyed lookup, so they become
functions; `slot_usage` is the `Vec<u32>` of per-slot section counts. -/
structure TimeState where
  teacher_schedules : String → List Nat
  slot_usage : List Nat
  grade_tracker : Nat → Nat → Nat

/-- `GradeSlotTracker::get_penalty`. -/
def gradePenalty (tracker : Nat → Nat → Nat) (grades : Option (List Nat))
    (slot : Nat) : Nat :=
  match grades with
  | some gs => (gs.map (fun g => tracker g slot * 500)).sum
  | none => 0

/-- The feasibility filter inside `find_best_slot`: the assigned teacher is
neither already teaching at this slot nor unavailable at `(day, slot)` for
any day of the week. -/
def feasibleSlot (teachers : List Teacher) (cfg : ScheduleConfig)
    (teacher_schedules : String → List Nat) (teacher_id : Option String)
    (slot : Nat) : Bool :=
  match teacher_id with
  | none => true
  | some tid =>
      if (teacher_schedules tid).contains slot then false
      else
        match mapLookup Teacher.id teachers tid with
        | some t =>
            !((List.range cfg.days_per_week).any
              (fun day => t.unavailable.contains (day, slot)))
        | none => true

/-- The penalty minimized by `find_best_slot`. -/
def slotPenalty (st : TimeState) (course_used_slots : List Nat)
    (grades : Option (List Nat)) (slot : Nat) : Nat :=
  st.slot_usage.getD slot 0
    + (if course_used_slots.contains slot then 1000 else 0)
    + gradePenalty st.grade_tracker grades slot

/-- `find_best_slot`: feasible slots in `[0, periods_per_day)`, minimum
penalty, first (lowest) slot among equal minima, defaulting to slot 0. -/
def find_best_slot (teachers : List Teacher) (cfg : ScheduleConfig)
    (st : TimeState) (course_used_slots : List Nat) (grades : Option (List Nat))
    (teacher_id : Option String) : Nat :=
  (firstMinBy (slotPenalty st course_used_slots grades)
    ((List.range cfg.periods_per_day).filter
      (feasibleSlot teachers cfg st.teacher_schedules teacher_id))).getD 0

/-- The body of `assign_time_slots`' per-section loop: pick the best slot,
push one period per day onto the section, and update all four tallies. -/
def timeStep (teachers : List Teacher) (cfg : ScheduleConfig) (course : Course)
    (acc : List Section × TimeState × List Nat) (p : Nat × Option String) :
    List Section × TimeState × List Nat :=
  let sections := acc.1
  let st := acc.2.1
  let course_used := acc.2.2
  let best := find_best_slot teachers cfg st course_used course.grade_restrictions p.2
  let sec := sections.getD p.1 default
  let sec' := { sec with
    periods := sec.periods ++ (List.range cfg.days_per_week).map (fun day => (day, best)) }
  let ts' : String → List Nat :=
    match p.2 with
    | some tid => fun t => if t = tid then best :: st.teacher_schedules t
                           else st.teacher_schedules t
    | none => st.teacher_schedules
  let tracker' : Nat → Nat → Nat :=
    match course.grade_restrictions with
    | some gs => fun g s => if s = best then st.grade_tracker g s + gs.count g
                            else st.grade_tracker g s
    | none => st.grade_tracker
  (sections.set p.1 sec',
   ⟨ts', st.slot_usage.set best (st.slot_usage.getD best 0 + 1), tracker'⟩,
   best :: course_used)

/-- The per-course section list of `assign_time_slots` (`sections_by_course`):
index and teacher id of every section of the course, in input order. -/
def sectionsByCourse (sections : List Section) (cid : String) :
    List (Nat × Option String) :=
  ((List.range sections.length).filter
      (fun i => (sections.getD i default).course_id = cid)).map
    (fun i => (i, (sections.getD i default).teacher_id))

/-- The sort key of the course-ordering pass: grade-restricted courses first
(fewer grades first), open or unknown courses last. -/
def courseRank (courses : List Course) (cid : String) : Nat × Nat :=
  match (mapLookup Course.id courses cid).bind Course.grade_restrictions with
  | some grades => (0, grades.length)
  | none => (1, 0)

/-- Lexicographic order on the course sort keys. -/
def pairLexLe (p q : Nat × Nat) : Prop :=
  p.1 < q.1 ∨ (p.1 = q.1 ∧ p.2 ≤ q.2)

instance : DecidableRel pairLexLe := fun p q => by
  unfold pairLexLe
  infer_instance

/-- Phase 2 entry point `assign_time_slots`. The Rust function iterates the
keys of a hash-randomized `HashMap` and then stable-sorts them, so the order
in which equally-ranked courses are processed depends on the run; that
enumeration order is the explicit `keyOrder` argument here (a faithful run
passes some permutation of the distinct course ids of `sections`). -/
def assign_time_slots (sections : List Section) (courses : List Course)
    (teachers : List Teacher) (cfg : ScheduleConfig) (keyOrder : List String) :
    List Section :=
  let sorted := List.insertionSort
    (fun a b => pairLexLe (courseRank courses a) (courseRank courses b)) keyOrder
  let init : TimeState :=
    ⟨fun _ => [], List.replicate cfg.periods_per_day 0, fun _ _ => 0⟩
  (sorted.foldl (fun acc cid =>
      match mapLookup Course.id courses cid with
      | none => acc
      | some course =>
          let group := sectionsByCourse sections cid
          let r := group.foldl (timeStep teachers cfg course) (acc.1, acc.2, [])
          (r.1, r.2.1))
    (sections, init)).1

/-! ### Phase 3: `scheduler/room_assigner.rs` -/

/-- `Room::has_features`. -/
def Room.has_features (r : Room) (required : List String) : Bool :=
  required.all (fun f => r.features.contains f)

/-- `Room::is_available`. -/
def Room.is_available (r : Room) (p : Period) : Bool :=
  !(r.unavailable.contains p)

/-- `find_suitable_room`: the first room of the (capacity-sorted) list with
enough capacity, all required features, and free — neither booked in the
room calendar nor marked unavailable — at every section period. -/
def find_suitable_room (sec : Section) (rooms : List Room)
    (required_features : List String) (room_schedules : String → List Period) :
    Option Room :=
  rooms.find? (fun r =>
    sec.capacity ≤ r.capacity
    && r.has_features required_features
    && sec.periods.all (fun p =>
        !((room_schedules r.id).contains p) && r.is_available p))

/-- The per-section required-feature count used to sort sections
(most-constrained first). -/
def featureCount (courses : List Course) (sec : Section) : Nat :=
  match mapLookup Course.id courses sec.course_id with
  | some c => c.required_features.length
  | none => 0

/-- The required features of a section's course as read by `assign_rooms`. -/
def requiredFeatures (courses : List Course) (sec : Section) : List String :=
  match mapLookup Course.id courses sec.course_id with
  | some c => c.required_features
  | none => []

/-- One iteration of `assign_rooms`' loop over the sorted section indices:
find a suitable room, record it on the section and book all section periods
in that room's calendar. -/
def roomStep (courses : List Course) (sorted_rooms : List Room)
    (acc : List Section × (String → List Period)) (idx : Nat) :
    List Section × (String → List Period) :=
  let sections := acc.1
  let cal := acc.2
  let sec := sections.getD idx default
  match find_suitable_room sec sorted_rooms (requiredFeatures courses sec) cal with
  | some room =>
      (sections.set idx { sec with room_id := some room.id },
       fun rid => if rid = room.id then cal rid ++ sec.periods else cal rid)
  | none => (sections, cal)

/-- The room list `assign_rooms` scans: the input rooms stable-sorted
ascending by capacity (`sorted_rooms.sort_by_key(|r| r.capacity)`). -/
def sortedRoomList (rooms : List Room) : List Room :=
  List.insertionSort (fun a b => a.capacity ≤ b.capacity) rooms

/-- The section processing order of `assign_rooms`: the section indices
stable-sorted by decreasing required-feature count
(`section_indices.sort_by_key(|i| Reverse(feature_count))`). -/
def sectionOrder (courses : List Course) (sections : List Section) : List Nat :=
  List.insertionSort
    (fun i j => featureCount courses (sections.getD j default)
        ≤ featureCount courses (sections.getD i default))
    (List.range sections.length)

/-- Declarative form of the predicate `find_suitable_room` tests on each
room: enough capacity, all required features present, and every section
period neither already booked in the room's calendar nor unavailable. -/
def SuitableRoom (sec : Section) (required_features : List String)
    (room_schedules : String → List Period) (r : Room) : Prop :=
  sec.capacity ≤ r.capacity
  ∧ (∀ f ∈ required_features, f ∈ r.features)
  ∧ ∀ p ∈ sec.periods, p ∉ room_schedules r.id ∧ p ∉ r.unavailable

/-- Phase 3 entry point `assign_rooms`: rooms sorted ascending by capacity,
sections processed in decreasing required-feature count (both stable sorts,
ties in input order). -/
def assign_rooms (sections : List Section) (rooms : List Room)
    (courses : List Course) : List Section :=
  ((sectionOrder courses sections).foldl
    (roomStep courses (sortedRoomList rooms)) (sections, fun _ => [])).1

/-- The induction invariant of the room-assignment loop: every assigned
section's periods are booked in its room's calendar, its room is a suitable
input room, and two distinct sections sharing a room never share a period. -/
def RoomInv (rooms : List Room) (courses : List Course)
    (state : List Section × (String → List Period)) : Prop :=
  ∀ i rid, (state.1.getD i default).room_id = some rid →
    (∀ p ∈ (state.1.getD i default).periods, p ∈ state.2 rid)
    ∧ (∃ r ∈ rooms, r.id = rid
        ∧ (state.1.getD i default).capacity ≤ r.capacity
        ∧ (∀ f ∈ requiredFeatures courses (state.1.getD i default), f ∈ r.features)
        ∧ ∀ p ∈ (state.1.getD i default).periods, p ∉ r.unavailable)
    ∧ ∀ j, j ≠ i → (state.1.getD j default).room_id = some rid →
        ∀ p ∈ (state.1.getD i default).periods,
          p ∉ (state.1.getD j default).periods

/-! ### Phase 4: `scheduler/ilp_solver.rs`

The ILP engine (`good_lp`/HiGHS) is external to the repository — the spec
scopes it out as a collaborator — so a solver outcome is modelled as an
arbitrary assignment `sol : Nat → Nat → Bool` of the binary variables; the
feasibility predicates below are the constraint sets the Rust code builds,
and the theorems assume of `sol` exactly that it satisfies them. -/

/-- Variable existence: `solve_student_assignment` creates `x[s][k]` iff
student `s` wants section `k`'s course and, when the course id resolves in
the course map, the student's grade passes its grade restriction. -/
def varExists (students : List Student) (sections : List Section)
    (courses : List Course) (s k : Nat) : Bool :=
  let student := students.getD s default
  let sec := sections.getD k default
  student.wants_course sec.course_id
    && (match mapLookup Course.id courses sec.course_id with
        | some c => c.allows_grade student.grade
        | none => true)

/-- Objective weight of `x[s][k]`: 1000 for a required course, otherwise
`10 - min(rank, 9)` for an elective at 0-based rank `rank`. -/
def objWeight (students : List Student) (sections : List Section)
    (s k : Nat) : Nat :=
  let student := students.getD s default
  let sec := sections.getD k default
  if student.required_courses.contains sec.course_id then 1000
  else
    match student.elective_rank sec.course_id with
    | some rank => 10 - min rank 9
    | none => 0

/-- `x[s,k]` exists and is set in the solution. -/
def solAssign (students : List Student) (sections : List Section)
    (courses : List Course) (sol : Nat → Nat → Bool) (s k : Nat) : Bool :=
  varExists students sections courses s k && sol s k

/-- Constraint 2 of the model (section capacity): at most `capacity` set
variables per section. -/
def capacityOk (students : List Student) (sections : List Section)
    (courses : List Course) (sol : Nat → Nat → Bool) : Prop :=
  ∀ k < sections.length,
    ((List.range students.length).filter
        (fun s => solAssign students sections courses sol s k)).length
      ≤ (sections.getD k default).capacity

/-- The overlap test of constraint 3: some period of section `k1` is a
period of section `k2`. -/
def periodsOverlap (sections : List Section) (k1 k2 : Nat) : Bool :=
  (sections.getD k1 default).periods.any
    (fun p => (sections.getD k2 default).periods.contains p)

/-- Constraint 3 of the model (no student time conflicts): for each student
and each variable pair on time-overlapping sections, at most one is set. -/
def conflictOk (students : List Student) (sections : List Section)
    (courses : List Course) (sol : Nat → Nat → Bool) : Prop :=
  ∀ s < students.length, ∀ k2 < sections.length, ∀ k1 < k2,
    periodsOverlap sections k1 k2 = true →
    ¬(solAssign students sections courses sol s k1 = true
      ∧ solAssign students sections courses sol s k2 = true)

/-- Solution extraction, stopped after the first `n` students: each section's
roster receives (in student input order) every student among the first `n`
whose variable for it is set. `solve_student_assignment` interleaves roster
filling with unassigned diagnosis, so student `s`'s diagnosis reads the
state `extractUpTo … (s+1)`. -/
def extractUpTo (students : List Student) (courses : List Course)
    (sol : Nat → Nat → Bool) (sections : List Section) (n : Nat) : List Section :=
  (List.range sections.length).map (fun k =>
    let sec := sections.getD k default
    let extra := ((List.range n).filter
        (fun s => solAssign students sections courses sol s k)).map
      (fun s => (students.getD s default).id)
    { sec with enrolled_students := sec.enrolled_students ++ extra })

/-- Rust's `format!("{:?}", x)` for the `Option<Vec<u8>>` of grade
restrictions, as interpolated into the grade-restriction reason string. -/
def formatGradeRestrictions : Option (List Nat) → String
  | none => "None"
  | some gs => "Some([" ++ String.intercalate ", " (gs.map toString) ++ "])"

/-- The capacity/availability checks of `determine_unassigned_reason` that
run after the grade check. -/
def unassignedTail (student : Student) (course_id : String)
    (sections : List Section) : String :=
  let course_sections := sections.filter (fun s => s.course_id = course_id)
  if course_sections.isEmpty then "No sections available"
  else if course_sections.all (fun s => s.is_full) then "All sections at capacity"
  else
    let student_periods := (sections.filter
        (fun s => s.enrolled_students.contains student.id)).flatMap
      (fun s => s.periods)
    if course_sections.any (fun s =>
        !(s.is_full) && s.periods.all (fun p => !(student_periods.contains p)))
    then "Unknown reason"
    else "Time conflict with other courses"

/-- `determine_unassigned_reason`: priority-ordered diagnosis for a required
course with no enrollment. -/
def determine_unassigned_reason (student : Student) (course_id : String)
    (sections : List Section) (courses : List Course) : String :=
  match mapLookup Course.id courses course_id with
  | some c =>
      if c.allows_grade student.grade then unassignedTail student course_id sections
      else
        "Grade " ++ toString student.grade ++ " not allowed (restricted to "
          ++ formatGradeRestrictions c.grade_restrictions ++ ")"
  | none => unassignedTail student course_id sections

/-- The unassigned entries contributed by student number `s`: one entry per
required course with no enrollment, diagnosed against the sections as filled
up to and including student `s`. -/
def unassignedEntriesFor (students : List Student) (courses : List Course)
    (sol : Nat → Nat → Bool) (sections : List Section) (s : Nat) :
    List UnassignedCourse :=
  let student := students.getD s default
  let current := extractUpTo students courses sol sections (s + 1)
  (student.required_courses.filter (fun cid =>
      !(current.any (fun sec => sec.course_id = cid
          && sec.enrolled_students.contains student.id)))).map
    (fun cid =>
      ⟨student.id, cid, determine_unassigned_reason student cid current courses⟩)

/-- The unassigned list built by `solve_student_assignment`: for each student
in input order and each required course of theirs with no enrollment, one
entry whose reason is diagnosed against the partially-extracted sections. -/
def computeUnassigned (students : List Student) (courses : List Course)
    (sol : Nat → Nat → Bool) (sections : List Section) : List UnassignedCourse :=
  (List.range students.length).flatMap
    (unassignedEntriesFor students courses sol sections)

/-- Phase 4 entry point `solve_student_assignment`, for a solver outcome
`sol`: the enrolled sections and the unassigned list. -/
def solve_student_assignment (students : List Student) (courses : List Course)
    (sol : Nat → Nat → Bool) (sections : List Section) :
    List Section × List UnassignedCourse :=
  (extractUpTo students courses sol sections students.length,
   computeUnassigned students courses sol sections)

/-! ### Phase 5: `scheduler/optimizer.rs` -/

/-- The `student_schedules` map as built at the top of
`optimize_section_balance`: every period of every section enrolling the
student (a `HashSet`, used through membership only). -/
def buildSchedules (sections : List Section) (sid : String) : List Period :=
  (sections.filter (fun sec => sec.enrolled_students.contains sid)).flatMap
    (fun sec => sec.periods)

/-- `can_move_student`: the target section has room and its periods meet
none of the student's commitments outside the source section. -/
def can_move_student (sid : String) (from_idx to_idx : Nat)
    (sections : List Section) (sched : String → List Period) : Bool :=
  let to_sec := sections.getD to_idx default
  if to_sec.is_full then false
  else
    let to_periods := to_sec.periods
    let from_periods := (sections.getD from_idx default).periods
    let other := (sched sid).filter (fun p => !(from_periods.contains p))
    !(to_periods.any (fun p => other.contains p))

/-- `move_student`: unenroll from the source, enroll into the target, and
patch the student's schedule (source periods out, target periods in). -/
def move_student (sid : String) (from_idx to_idx : Nat)
    (sections : List Section) (sched : String → List Period) :
    List Section × (String → List Period) :=
  let from_periods := (sections.getD from_idx default).periods
  let to_periods := (sections.getD to_idx default).periods
  let sections1 := sections.set from_idx ((sections.getD from_idx default).unenroll sid)
  let sections2 := sections1.set to_idx ((sections1.getD to_idx default).enroll sid)
  (sections2,
   fun s => if s = sid
     then (sched s).filter (fun p => !(from_periods.contains p)) ++ to_periods
     else sched s)

/-- One course's turn inside a balancing round: stable-sort the course's
section indices by enrollment, and when the largest exceeds the smallest by
more than one, move the first movable student of the largest roster. -/
def balanceCourse (state : List Section × (String → List Period) × Bool)
    (group : List Nat) : List Section × (String → List Period) × Bool :=
  let sections := state.1
  let sched := state.2.1
  if group.length < 2 then state
  else
    let sorted := List.insertionSort
      (fun i j => (sections.getD i default).enrollment
          ≤ (sections.getD j default).enrollment) group
    let smallest := sorted.headD 0
    let largest := sorted.getLastD 0
    if (sections.getD largest default).enrollment
        ≤ (sections.getD smallest default).enrollment + 1 then state
    else
      match (sections.getD largest default).enrolled_students.find?
          (fun sid => can_move_student sid largest smallest sections sched) with
      | some sid =>
          let r := move_student sid largest smallest sections sched
          (r.1, r.2, true)
      | none => state

/-- One round of the optimizer: every course group once, accumulating the
`improved` flag. -/
def balanceRound (groups : List (List Nat))
    (state : List Section × (String → List Period)) :
    List Section × (String → List Period) × Bool :=
  groups.foldl balanceCourse (state.1, state.2, false)

/-- The `MAX_ITERATIONS`-bounded outer loop with its early exit when a full
round makes no move. -/
def balanceLoop (groups : List (List Nat)) :
    Nat → List Section × (String → List Period) →
      List Section × (String → List Period)
  | 0, state => state
  | n + 1, state =>
      let r := balanceRound groups state
      if r.2.2 then balanceLoop groups n (r.1, r.2.1) else (r.1, r.2.1)

/-- `sections_by_course` of the optimizer: the indices of one course's
sections, in input order. -/
def courseGroup (sections : List Section) (cid : String) : List Nat :=
  (List.range sections.length).filter
    (fun i => (sections.getD i default).course_id = cid)

/-- Phase 5 entry point `optimize_section_balance`. Like phase 2 it iterates
a hash-randomized `HashMap` (`sections_by_course`), so the course iteration
order is the explicit `courseOrder` parameter. -/
def optimize_section_balance (courseOrder : List String)
    (sections : List Section) : List Section :=
  (balanceLoop (courseOrder.map (courseGroup sections)) 100
    (sections, buildSchedules sections)).1

/-- Sections respect capacity (the claim-C2 invariant). -/
def CapOk (sections : List Section) : Prop :=
  ∀ i, (sections.getD i default).enrollment ≤ (sections.getD i default).capacity

/-- No student sits in two distinct sections that share a period (the
claim-C3 invariant). -/
def ConflictFree (sections : List Section) : Prop :=
  ∀ sid p i j, i ≠ j →
    sid ∈ (sections.getD i default).enrolled_students →
    sid ∈ (sections.getD j default).enrolled_students →
    p ∈ (sections.getD i default).periods →
    p ∈ (sections.getD j default).periods → False

/-- The schedule map agrees with the rosters: a period is in a student's
schedule iff some section enrolling the student meets at it. -/
def Accurate (sections : List Section) (sched : String → List Period) : Prop :=
  ∀ sid p, p ∈ sched sid ↔
    ∃ i, sid ∈ (sections.getD i default).enrolled_students
      ∧ p ∈ (sections.getD i default).periods

/-- Every roster is duplicate-free. -/
def NodupRosters (sections : List Section) : Prop :=
  ∀ i, ((sections.getD i default).enrolled_students).Nodup

/-- The per-course enrollment profile read off a section list (the
enrollments of the course's sections, in input order). -/
def courseEnrollments (sections : List Section) (cid : String) : List Nat :=
  (courseGroup sections cid).map (fun i => (sections.getD i default).enrollment)

/-- Maximum of a list of naturals (0 for the empty list). -/
def listMax : List Nat → Nat
  | [] => 0
  | x :: xs => max x (listMax xs)

/-- Minimum of a nonempty list of naturals (0 for the empty list). -/
def listMin : List Nat → Nat
  | [] => 0
  | [x] => x
  | x :: y :: xs => min x (listMin (y :: xs))

/-- The imbalance of one course: max minus min section enrollment. -/
def spread (sections : List Section) (cid : String) : Nat :=
  listMax (courseEnrollments sections cid) - listMin (courseEnrollments sections cid)

/-- The joint invariant carried through the optimizer loop: skeleton fields
are preserved, and each of the claim invariants is preserved relative to the
loop's input. -/
def OptInv (orig : List Section) (st : List Section × (String → List Period)) : Prop :=
  st.1.length = orig.length
  ∧ (∀ i, (st.1.getD i default).course_id = (orig.getD i default).course_id)
  ∧ (CapOk orig → CapOk st.1)
  ∧ (NodupRosters orig → NodupRosters st.1)
  ∧ (ConflictFree orig → ConflictFree st.1 ∧ Accurate st.1 st.2)
  ∧ (NodupRosters orig → ∀ cid, spread st.1 cid ≤ spread orig cid)

/-- C10: `Section::enroll` is idempotent — enrolling a student already in the
roster leaves the section unchanged, hence rosters built through `enroll`
stay duplicate-free — and `Section::unenroll` removes every occurrence of the
given id while leaving every other id's multiplicity untouched. -/
theorem c10_enroll_unenroll :
    (∀ (sec : Section) (sid : String), sec.has_student sid = true → sec.enroll sid = sec)
    ∧ (∀ (sec : Section) (sid : String), (sec.enroll sid).enroll sid = sec.enroll sid)
    ∧ (∀ (sec : Section) (sid : String), sec.enrolled_students.Nodup →
        ((sec.enroll sid).enrolled_students).Nodup)
    ∧ (∀ (sec : Section) (sid : String),
        ((sec.unenroll sid).enrolled_students).contains sid = false)
    ∧ (∀ (sec : Section) (sid x : String), x ≠ sid →
        ((sec.unenroll sid).enrolled_students).count x = sec.enrolled_students.count x) := by
  refine ⟨?_, ?_, ?_, ?_, ?_⟩
  · intro sec sid h
    simp [Section.enroll, h]
  · intro sec sid
    by_cases h : sec.has_student sid = true
    · simp [Section.enroll, h]
    · have hmem : sid ∉ sec.enrolled_students := by
        simpa [Section.has_student] using h
      simp [Section.enroll, Section.has_student, hmem]
  · intro sec sid hnd
    by_cases h : sec.has_student sid = true
    · simpa [Section.enroll, h] using hnd
    · have hmem : sid ∉ sec.enrolled_students := by
        simpa [Section.has_student] using h
      simp only [Section.enroll, h, Bool.false_eq_true, if_false]
      simp [List.nodup_append, hnd, hmem]
  · intro sec sid
    simp [Section.unenroll, List.mem_filter]
  · intro sec sid x hx
    simp only [Section.unenroll]
    exact List.count_filter (by simp [hx])

/-- Closed witness for `c10_enroll_unenroll` at a concrete section. -/
theorem c10_enroll_unenroll_witness :
    (Section.mk "m-1" "m" none none [] ["a"] 30).enroll "a"
      = Section.mk "m-1" "m" none none [] ["a"] 30
    ∧ ((Section.mk "m-1" "m" none none [] ["a", "b"] 30).unenroll "a").enrolled_students.count "b"
      = (Section.mk "m-1" "m" none none [] ["a", "b"] 30).enrolled_students.count "b" :=
  ⟨c10_enroll_unenroll.1 _ "a" (by decide),
   c10_enroll_unenroll.2.2.2.2 _ "a" "b" (by decide)⟩

theorem firstMinBy_eq_none {α : Type} (f : α → Nat) (l : List α) :
    firstMinBy f l = none ↔ l = [] := by
  cases l with
  | nil => simp [firstMinBy]
  | cons x xs =>
    simp only [firstMinBy]
    cases hxs : firstMinBy f xs with
    | none => simp
    | some b => by_cases hle : f x ≤ f b <;> simp [hle]

theorem firstMinBy_mem {α : Type} (f : α → Nat) :
    ∀ (l : List α) (b : α), firstMinBy f l = some b → b ∈ l := by
  intro l
  induction l with
  | nil => intro b h; simp [firstMinBy] at h
  | cons x xs ih =>
    intro b h
    simp only [firstMinBy] at h
    cases hxs : firstMinBy f xs with
    | none =>
      rw [hxs] at h
      cases h
      exact List.mem_cons_self x xs
    | some c =>
      rw [hxs] at h
      dsimp only at h
      by_cases hle : f x ≤ f c
      · rw [if_pos hle] at h
        cases h
        exact List.mem_cons_self x xs
      · rw [if_neg hle] at h
        cases h
        exact List.mem_cons_of_mem x (ih b hxs)

theorem firstMinBy_le {α : Type} (f : α → Nat) :
    ∀ (l : List α) (b : α), firstMinBy f l = some b → ∀ x ∈ l, f b ≤ f x := by
  intro l
  induction l with
  | nil => intro b h; simp [firstMinBy] at h
  | cons x xs ih =>
    intro b h y hy
    simp only [firstMinBy] at h
    cases hxs : firstMinBy f xs with
    | none =>
      rw [hxs] at h
      cases h
      have : xs = [] := (firstMinBy_eq_none f xs).1 hxs
      subst this
      simp at hy
      subst hy
      exact le_refl _
    | some c =>
      rw [hxs] at h
      dsimp only at h
      by_cases hle : f x ≤ f c
      · rw [if_pos hle] at h
        cases h
        rcases List.mem_cons.1 hy with rfl | hy2
        · exact le_refl _
        · exact le_trans hle (ih c hxs y hy2)
      · rw [if_neg hle] at h
        cases h
        rcases List.mem_cons.1 hy with rfl | hy2
        · exact le_of_lt (lt_of_not_le hle)
        · exact ih b hxs y hy2

theorem firstMinBy_first {α : Type} (f : α → Nat) :
    ∀ (l : List α) (b : α), firstMinBy f l = some b →
      ∃ l1 l2, l = l1 ++ b :: l2 ∧ ∀ x ∈ l1, f b < f x := by
  intro l
  induction l with
  | nil => intro b h; simp [firstMinBy] at h
  | cons x xs ih =>
    intro b h
    simp only [firstMinBy] at h
    cases hxs : firstMinBy f xs with
    | none =>
      rw [hxs] at h
      cases h
      exact ⟨[], xs, rfl, by simp⟩
    | some c =>
      rw [hxs] at h
      dsimp only at h
      by_cases hle : f x ≤ f c
      · rw [if_pos hle] at h
        cases h
        exact ⟨[], xs, rfl, by simp⟩
      · rw [if_neg hle] at h
        cases h
        obtain ⟨l1, l2, heq, hlt⟩ := ih b hxs
        refine ⟨x :: l1, l2, by simp [heq], ?_⟩
        intro y hy
        rcases List.mem_cons.1 hy with rfl | hy2
        · exact lt_of_not_le hle
        · exact hlt y hy2

/-! ### Phase 1: `scheduler/section_creator.rs` -/

theorem pickTeacher_some (counts : String → Nat) (qualified : List Teacher)
    (t : Teacher) (h : pickTeacher counts qualified = some t) :
    t ∈ qualified ∧ counts t.id < t.max_sections := by
  have h2 : firstMinBy (fun t => counts t.id)
      (qualified.filter (fun t => counts t.id < t.max_sections)) = some t := h
  have hm := firstMinBy_mem (fun t => counts t.id) _ t h2
  have h2 := List.mem_filter.1 hm
  exact ⟨h2.1, by simpa using h2.2⟩

theorem createSectionsAux_proj (course : Course) (qualified : List Teacher) :
    ∀ (ks : List Nat) (counts : String → Nat),
      (createSectionsAux course qualified ks counts).1.map
          (fun s => (s.id, s.course_id, s.capacity))
        = ks.map (fun k => (course.id ++ "-" ++ toString (k + 1), course.id,
            course.max_students)) := by
  intro ks
  induction ks with
  | nil => intro counts; rfl
  | cons k ks ih =>
    intro counts
    simp only [createSectionsAux]
    cases hp : pickTeacher counts qualified <;> simp [emitSection, hp, ih]

theorem createSectionsAux_counts (course : Course) (qualified : List Teacher) :
    ∀ (ks : List Nat) (counts : String → Nat) (tid : String),
      (createSectionsAux course qualified ks counts).2 tid
        = counts tid + ((createSectionsAux course qualified ks counts).1.filter
            (fun s => s.teacher_id = some tid)).length := by
  intro ks
  induction ks with
  | nil => intro counts tid; simp [createSectionsAux]
  | cons k ks ih =>
    intro counts tid
    simp only [createSectionsAux]
    cases hp : pickTeacher counts qualified with
    | none =>
      simp only [emitSection, hp]
      rw [ih]
      simp
    | some t =>
      simp only [emitSection, hp]
      rw [ih]
      by_cases htid : tid = t.id
      · subst htid
        simp
        omega
      · have : ¬ (t.id = tid) := fun hc => htid hc.symm
        simp [htid, this]

theorem createSectionsAux_bound (teachers : List Teacher)
    (hids : (teachers.map Teacher.id).Nodup)
    (course : Course) (qualified : List Teacher)
    (hq : ∀ t ∈ qualified, t ∈ teachers) :
    ∀ (ks : List Nat) (counts : String → Nat),
      (∀ t ∈ teachers, counts t.id ≤ t.max_sections) →
      ∀ t ∈ teachers,
        (createSectionsAux course qualified ks counts).2 t.id ≤ t.max_sections := by
  intro ks
  induction ks with
  | nil => intro counts h t ht; simpa [createSectionsAux] using h t ht
  | cons k ks ih =>
    intro counts h t ht
    simp only [createSectionsAux]
    cases hp : pickTeacher counts qualified with
    | none =>
      simp only [emitSection, hp]
      exact ih counts h t ht
    | some u =>
      have hu := pickTeacher_some counts qualified u hp
      have humem : u ∈ teachers := hq u hu.1
      simp only [emitSection, hp]
      refine ih _ ?_ t ht
      intro t' ht'
      by_cases hid : t'.id = u.id
      · have heq : t' = u := List.inj_on_of_nodup_map hids ht' humem hid
        subst heq
        simp
        omega
      · simp only [if_neg hid]
        exact h t' ht'

theorem createSectionsFrom_proj (teachers : List Teacher) :
    ∀ (cs : List Course) (counts : String → Nat),
      (createSectionsFrom teachers cs counts).1.map
          (fun s => (s.id, s.course_id, s.capacity))
        = cs.flatMap (fun c => (List.range c.sections).map
            (fun k => (c.id ++ "-" ++ toString (k + 1), c.id, c.max_students))) := by
  intro cs
  induction cs with
  | nil => intro counts; rfl
  | cons c cs ih =>
    intro counts
    simp only [createSectionsFrom, List.flatMap_cons, List.map_append]
    rw [createSectionsAux_proj, ih]

theorem createSectionsFrom_counts (teachers : List Teacher) :
    ∀ (cs : List Course) (counts : String → Nat) (tid : String),
      (createSectionsFrom teachers cs counts).2 tid
        = counts tid + ((createSectionsFrom teachers cs counts).1.filter
            (fun s => s.teacher_id = some tid)).length := by
  intro cs
  induction cs with
  | nil => intro counts tid; simp [createSectionsFrom]
  | cons c cs ih =>
    intro counts tid
    simp only [createSectionsFrom, List.filter_append, List.length_append]
    rw [ih, createSectionsAux_counts]
    omega

theorem createSectionsFrom_bound (teachers : List Teacher)
    (hids : (teachers.map Teacher.id).Nodup) :
    ∀ (cs : List Course) (counts : String → Nat),
      (∀ t ∈ teachers, counts t.id ≤ t.max_sections) →
      ∀ t ∈ teachers,
        (createSectionsFrom teachers cs counts).2 t.id ≤ t.max_sections := by
  intro cs
  induction cs with
  | nil => intro counts h t ht; simpa [createSectionsFrom] using h t ht
  | cons c cs ih =>
    intro counts h t ht
    simp only [createSectionsFrom]
    refine ih _ ?_ t ht
    intro t' ht'
    refine createSectionsAux_bound teachers hids c _ ?_ _ counts h t' ht'
    intro u hu
    exact List.mem_of_mem_filter hu

/-- C8: `create_sections` iterates courses in input order emitting exactly
`course.sections` sections with ids `"<course_id>-<k>"` (k = 1..sections),
capacity copied from the course; the picked teacher is a qualified teacher
below quota with minimal current count, first in the qualified list among
equal minima, and `none` is assigned exactly when no qualified teacher has
remaining capacity; consequently (given unique teacher ids) no teacher ends
up with more sections than their `max_sections`. -/
theorem c8_create_sections (courses : List Course) (teachers : List Teacher)
    (hids : (teachers.map Teacher.id).Nodup) :
    ((create_sections courses teachers).map (fun s => (s.id, s.course_id, s.capacity))
      = courses.flatMap (fun c => (List.range c.sections).map
          (fun k => (c.id ++ "-" ++ toString (k + 1), c.id, c.max_students))))
    ∧ (∀ t ∈ teachers,
        ((create_sections courses teachers).filter
          (fun s => s.teacher_id = some t.id)).length ≤ t.max_sections)
    ∧ (∀ (counts : String → Nat) (qualified : List Teacher),
        (∀ t, pickTeacher counts qualified = some t →
          t ∈ qualified ∧ counts t.id < t.max_sections
          ∧ (∀ u ∈ qualified, counts u.id < u.max_sections → counts t.id ≤ counts u.id)
          ∧ ∃ l1 l2,
              qualified.filter (fun u => counts u.id < u.max_sections) = l1 ++ t :: l2
              ∧ ∀ u ∈ l1, counts t.id < counts u.id)
        ∧ (pickTeacher counts qualified = none →
            ∀ u ∈ qualified, ¬ counts u.id < u.max_sections)) := by
  refine ⟨createSectionsFrom_proj teachers courses _, ?_, ?_⟩
  · intro t ht
    have hrel := createSectionsFrom_counts teachers courses (fun _ => 0) t.id
    have hbd := createSectionsFrom_bound teachers hids courses (fun _ => 0)
      (fun t' _ => Nat.zero_le _) t ht
    unfold create_sections
    omega
  · intro counts qualified
    constructor
    · intro t h
      have h' : firstMinBy (fun t => counts t.id)
          (qualified.filter (fun t => counts t.id < t.max_sections)) = some t := h
      have h1 := pickTeacher_some counts qualified t h
      refine ⟨h1.1, h1.2, ?_, ?_⟩
      · intro u hu hcap
        refine firstMinBy_le (fun t => counts t.id) _ t h' u ?_
        exact List.mem_filter.2 ⟨hu, by simpa using hcap⟩
      · exact firstMinBy_first (fun t => counts t.id) _ t h'
    · intro h u hu hcap
      have h' : firstMinBy (fun t => counts t.id)
          (qualified.filter (fun t => counts t.id < t.max_sections)) = none := h
      have hnil : qualified.filter (fun u => counts u.id < u.max_sections) = [] :=
        (firstMinBy_eq_none _ _).1 h'
      have hno := List.filter_eq_nil_iff.1 hnil u hu
      simp at hno
      omega

/-- Closed witness for `c8_create_sections`: two teachers with quota 2 each,
one course asking for four sections. -/
theorem c8_create_sections_witness :
    ((create_sections
        [⟨"math", "Math", 30, 5, none, [], 4⟩]
        [⟨"t1", "T1", ["math"], 2, []⟩, ⟨"t2", "T2", ["math"], 2, []⟩]).filter
      (fun s => s.teacher_id = some "t1")).length ≤ 2 :=
  (c8_create_sections
    [⟨"math", "Math", 30, 5, none, [], 4⟩]
    [⟨"t1", "T1", ["math"], 2, []⟩, ⟨"t2", "T2", ["math"], 2, []⟩]
    (by decide)).2.1 ⟨"t1", "T1", ["math"], 2, []⟩ (by decide)

/-! ### Phase 2: `scheduler/time_assigner.rs` -/

theorem getD_set_self {α : Type} [Inhabited α] (l : List α) (i : Nat) (a : α)
    (h : i < l.length) : (l.set i a).getD i default = a := by
  rw [List.getD_eq_getElem?_getD, List.getElem?_set_self (by simpa using h)]
  rfl

theorem getD_set_ne {α : Type} [Inhabited α] (l : List α) (i j : Nat) (a : α)
    (h : i ≠ j) : (l.set i a).getD j default = l.getD j default := by
  rw [List.getD_eq_getElem?_getD, List.getElem?_set_ne h,
    ← List.getD_eq_getElem?_getD]

theorem getD_of_length_le {α : Type} [Inhabited α] (l : List α) (i : Nat)
    (h : l.length ≤ i) : l.getD i default = default := by
  rw [List.getD_eq_getElem?_getD, List.getElem?_eq_none h]
  rfl

theorem roomStep_inv (rooms : List Room) (courses : List Course)
    (sorted_rooms : List Room) (hsr : ∀ r ∈ sorted_rooms, r ∈ rooms)
    (sections : List Section) (cal : String → List Period) (idx : Nat)
    (hinv : RoomInv rooms courses (sections, cal)) :
    RoomInv rooms courses (roomStep courses sorted_rooms (sections, cal) idx) := by
  simp only [roomStep]
  cases hfind : find_suitable_room (sections.getD idx default) sorted_rooms
      (requiredFeatures courses (sections.getD idx default)) cal with
  | none => exact hinv
  | some room =>
    have hroommem : room ∈ rooms := hsr room (List.mem_of_find?_eq_some hfind)
    have hp := List.find?_some hfind
    simp only [Bool.and_eq_true, decide_eq_true_eq, Room.has_features,
      Room.is_available, List.all_eq_true] at hp
    obtain ⟨⟨hcap, hfeat⟩, hfree⟩ := hp
    have hfeat2 : ∀ f ∈ requiredFeatures courses (sections.getD idx default),
        f ∈ room.features := by
      intro f hf
      have := hfeat f hf
      simpa using this
    have hfree2 : ∀ p ∈ (sections.getD idx default).periods,
        p ∉ cal room.id ∧ p ∉ room.unavailable := by
      intro p hpm
      have h2 := hfree p hpm
      simp only [Bool.not_eq_true'] at h2
      constructor
      · intro hc
        have h3 : (cal room.id).contains p = true := by simpa using hc
        rw [h2.1] at h3
        exact Bool.noConfusion h3
      · intro hc
        have h3 : room.unavailable.contains p = true := by simpa using hc
        rw [h2.2] at h3
        exact Bool.noConfusion h3
    unfold RoomInv at hinv ⊢
    dsimp only
    dsimp only at hinv
    intro i rid hi
    by_cases hieq : i = idx
    · subst hieq
      by_cases hlen : i < sections.length
      · rw [getD_set_self _ _ _ hlen] at hi ⊢
        have hridEq : rid = room.id := by
          injection hi with h
          exact h.symm
        subst hridEq
        refine ⟨?_, ?_, ?_⟩
        · intro p hpm
          show p ∈ (if room.id = room.id then
            cal room.id ++ (sections.getD i default).periods else cal room.id)
          rw [if_pos rfl]
          exact List.mem_append_right _ hpm
        · exact ⟨room, hroommem, rfl, hcap, hfeat2, fun p hpm => (hfree2 p hpm).2⟩
        · intro j hj hjr p hpm
          rw [getD_set_ne _ _ _ _ (fun hc => hj hc.symm)] at hjr ⊢
          have hBj := (hinv j room.id hjr).1
          intro hpj
          exact (hfree2 p hpm).1 (hBj p hpj)
      · exfalso
        rw [List.set_eq_of_length_le (Nat.le_of_not_lt hlen),
          getD_of_length_le _ _ (Nat.le_of_not_lt hlen)] at hi
        exact Option.noConfusion hi
    · rw [getD_set_ne _ _ _ _ (fun hc => hieq hc.symm)] at hi ⊢
      obtain ⟨hB, hC, hA⟩ := hinv i rid hi
      refine ⟨?_, hC, ?_⟩
      · intro p hpm
        have hmem := hB p hpm
        show p ∈ (if rid = room.id then
          cal rid ++ (sections.getD idx default).periods else cal rid)
        by_cases hr : rid = room.id
        · subst hr
          rw [if_pos rfl]
          exact List.mem_append_left _ hmem
        · rw [if_neg hr]
          exact hmem
      · intro j hj hjr p hpm
        by_cases hjeq : j = idx
        · subst hjeq
          by_cases hlen : j < sections.length
          · rw [getD_set_self _ _ _ hlen] at hjr ⊢
            have hridEq : rid = room.id := by
              injection hjr with h
              exact h.symm
            subst hridEq
            intro hpj
            exact (hfree2 p hpj).1 (hB p hpm)
          · exfalso
            rw [List.set_eq_of_length_le (Nat.le_of_not_lt hlen),
              getD_of_length_le _ _ (Nat.le_of_not_lt hlen)] at hjr
            exact Option.noConfusion hjr
        · rw [getD_set_ne _ _ _ _ (fun hc => hjeq hc.symm)] at hjr ⊢
          exact hA j hj hjr p hpm

theorem foldl_roomStep_inv (rooms : List Room) (courses : List Course)
    (sorted_rooms : List Room) (hsr : ∀ r ∈ sorted_rooms, r ∈ rooms) :
    ∀ (order : List Nat) (sections : List Section) (cal : String → List Period),
      RoomInv rooms courses (sections, cal) →
      RoomInv rooms courses (order.foldl (roomStep courses sorted_rooms) (sections, cal)) := by
  intro order
  induction order with
  | nil => intro sections cal h; exact h
  | cons idx rest ih =>
    intro sections cal h
    have hstep := roomStep_inv rooms courses sorted_rooms hsr sections cal idx h
    exact ih _ _ hstep

/-- C1 (violated by the code): `assign_time_slots` enumerates the keys of a
hash-randomized `HashMap` and only stable-sorts them, so two runs on the
byte-identical input can process equally-ranked courses in different orders
and emit different period assignments. Here the same two-course input run
under the two possible key enumerations (permutations of the same key set)
produces different sections. -/
theorem c1_hash_order_changes_output :
    (["arta", "artb"] : List String).Perm ["artb", "arta"]
    ∧ assign_time_slots
        (create_sections [⟨"arta", "Art A", 30, 5, none, [], 1⟩,
          ⟨"artb", "Art B", 30, 5, none, [], 1⟩] [])
        [⟨"arta", "Art A", 30, 5, none, [], 1⟩, ⟨"artb", "Art B", 30, 5, none, [], 1⟩]
        [] ⟨2, 1⟩ ["arta", "artb"]
      ≠ assign_time_slots
        (create_sections [⟨"arta", "Art A", 30, 5, none, [], 1⟩,
          ⟨"artb", "Art B", 30, 5, none, [], 1⟩] [])
        [⟨"arta", "Art A", 30, 5, none, [], 1⟩, ⟨"artb", "Art B", 30, 5, none, [], 1⟩]
        [] ⟨2, 1⟩ ["artb", "arta"] := by
  constructor
  · decide
  · decide

/-- C6: for a section processed by `assign_time_slots`, whenever some
feasible slot exists the chosen slot is feasible and minimizes the penalty
`slot_usage + 1000·[slot reused in course] + 500·Σ grade clashes` with ties
broken by the lowest slot index; when no slot is feasible the section gets
slot 0; and the section's periods become exactly one period per day at the
chosen slot. -/
theorem c6_time_slot_choice (teachers : List Teacher) (cfg : ScheduleConfig)
    (st : TimeState) (course_used : List Nat) (course : Course)
    (tid : Option String) (sections : List Section) (idx : Nat)
    (hidx : idx < sections.length)
    (hper : (sections.getD idx default).periods = []) :
    (∀ s0, s0 < cfg.periods_per_day →
      feasibleSlot teachers cfg st.teacher_schedules tid s0 = true →
        feasibleSlot teachers cfg st.teacher_schedules tid
            (find_best_slot teachers cfg st course_used course.grade_restrictions tid)
          = true
        ∧ ∀ s, s < cfg.periods_per_day →
            feasibleSlot teachers cfg st.teacher_schedules tid s = true →
              slotPenalty st course_used course.grade_restrictions
                  (find_best_slot teachers cfg st course_used course.grade_restrictions tid)
                ≤ slotPenalty st course_used course.grade_restrictions s
              ∧ (slotPenalty st course_used course.grade_restrictions s
                    = slotPenalty st course_used course.grade_restrictions
                      (find_best_slot teachers cfg st course_used course.grade_restrictions tid)
                  → find_best_slot teachers cfg st course_used course.grade_restrictions tid ≤ s))
    ∧ ((∀ s, s < cfg.periods_per_day →
          feasibleSlot teachers cfg st.teacher_schedules tid s = false) →
        find_best_slot teachers cfg st course_used course.grade_restrictions tid = 0)
    ∧ ((timeStep teachers cfg course (sections, st, course_used) (idx, tid)).1.getD
          idx default).periods
        = (List.range cfg.days_per_week).map
            (fun day =>
              ((day : Nat),
               find_best_slot teachers cfg st course_used course.grade_restrictions tid)) := by
  refine ⟨?_, ?_, ?_⟩
  · intro s0 hs0 hf0
    set l := (List.range cfg.periods_per_day).filter
      (feasibleSlot teachers cfg st.teacher_schedules tid) with hl
    have hs0l : s0 ∈ l := List.mem_filter.2 ⟨List.mem_range.2 hs0, hf0⟩
    have hne : l ≠ [] := fun hnil => by simp [hnil] at hs0l
    obtain ⟨b, hb⟩ : ∃ b, firstMinBy (slotPenalty st course_used course.grade_restrictions) l
        = some b := by
      cases hfm : firstMinBy (slotPenalty st course_used course.grade_restrictions) l with
      | none => exact absurd ((firstMinBy_eq_none _ _).1 hfm) hne
      | some b => exact ⟨b, rfl⟩
    have hbest : find_best_slot teachers cfg st course_used course.grade_restrictions tid = b := by
      unfold find_best_slot
      rw [← hl, hb]
      rfl
    have hbl : b ∈ l := firstMinBy_mem _ l b hb
    have hbfeas : feasibleSlot teachers cfg st.teacher_schedules tid b = true :=
      (List.mem_filter.1 hbl).2
    rw [hbest]
    refine ⟨hbfeas, ?_⟩
    intro s hs hf
    have hsl : s ∈ l := List.mem_filter.2 ⟨List.mem_range.2 hs, hf⟩
    refine ⟨firstMinBy_le _ l b hb s hsl, ?_⟩
    intro heqpen
    obtain ⟨l1, l2, hdec, hlt⟩ := firstMinBy_first _ l b hb
    have hpl : l.Pairwise (· < ·) :=
      (List.pairwise_lt_range cfg.periods_per_day).sublist (List.filter_sublist _)
    have hsnotl1 : s ∉ l1 := fun hmem => absurd heqpen (Nat.ne_of_gt (hlt s hmem))
    rw [hdec] at hsl
    rcases List.mem_append.1 hsl with h1 | h2
    · exact absurd h1 hsnotl1
    · rcases List.mem_cons.1 h2 with rfl | h3
      · exact le_refl _
      · rw [hdec] at hpl
        have := (List.pairwise_append.1 hpl).2.1
        exact le_of_lt (List.rel_of_pairwise_cons this h3)
  · intro h
    have hnil : (List.range cfg.periods_per_day).filter
        (feasibleSlot teachers cfg st.teacher_schedules tid) = [] := by
      apply List.filter_eq_nil_iff.2
      intro a ha
      simp [h a (List.mem_range.1 ha)]
    unfold find_best_slot
    rw [hnil]
    rfl
  · show ((sections.set idx _).getD idx default).periods = _
    rw [List.getD_eq_getElem?_getD, List.getElem?_set_self (by simpa using hidx)]
    rw [List.getD_eq_getElem?_getD] at hper
    simp [hper]

/-- Closed witness for `c6_time_slot_choice`: one teacher-less section,
two slots, empty tallies. -/
theorem c6_time_slot_choice_witness :
    feasibleSlot [] ⟨2, 1⟩ (fun _ => ([] : List Nat)) none
        (find_best_slot [] ⟨2, 1⟩ ⟨fun _ => [], [0, 0], fun _ _ => 0⟩ [] none none)
      = true
    ∧ ((timeStep [] ⟨2, 1⟩ ⟨"math", "Math", 30, 5, none, [], 1⟩
          ([⟨"math-1", "math", none, none, [], [], 30⟩],
            ⟨fun _ => [], [0, 0], fun _ _ => 0⟩, []) (0, none)).1.getD 0 default).periods
      = (List.range 1).map
          (fun day => ((day : Nat),
            find_best_slot [] ⟨2, 1⟩ ⟨fun _ => [], [0, 0], fun _ _ => 0⟩ [] none none)) :=
  ⟨((c6_time_slot_choice [] ⟨2, 1⟩ ⟨fun _ => [], [0, 0], fun _ _ => 0⟩ []
      ⟨"math", "Math", 30, 5, none, [], 1⟩ none
      [⟨"math-1", "math", none, none, [], [], 30⟩] 0 (by decide) rfl).1
      0 (by decide) (by decide)).1,
   (c6_time_slot_choice [] ⟨2, 1⟩ ⟨fun _ => [], [0, 0], fun _ _ => 0⟩ []
      ⟨"math", "Math", 30, 5, none, [], 1⟩ none
      [⟨"math-1", "math", none, none, [], [], 30⟩] 0 (by decide) rfl).2.2⟩

theorem contains_iff_mem {α : Type} [BEq α] [LawfulBEq α] (l : List α) (a : α) :
    l.contains a = true ↔ a ∈ l := by
  simp

/-- `List.find?` returns the FIRST match: a successful search splits the
list at the found element, with the predicate false on everything before. -/
theorem find?_first {α : Type} (p : α → Bool) :
    ∀ (l : List α) (a : α), l.find? p = some a →
      ∃ l1 l2, l = l1 ++ a :: l2 ∧ ∀ x ∈ l1, p x = false := by
  intro l
  induction l with
  | nil => intro a h; simp at h
  | cons x xs ih =>
    intro a h
    cases hp : p x with
    | true =>
      rw [List.find?_cons_of_pos _ hp] at h
      cases h
      exact ⟨[], xs, rfl, by simp⟩
    | false =>
      rw [List.find?_cons_of_neg _ (by simp [hp])] at h
      obtain ⟨l1, l2, heq, hall⟩ := ih a h
      refine ⟨x :: l1, l2, by simp [heq], ?_⟩
      intro y hy
      rcases List.mem_cons.1 hy with rfl | hy2
      · exact hp
      · exact hall y hy2

theorem orderedInsert_pairwise_desc (key : Nat → Nat) (x : Nat) :
    ∀ (l : List Nat),
      l.Pairwise (fun i j => key j < key i ∨ (key i = key j ∧ i < j)) →
      (∀ y ∈ l, x < y) →
      (List.orderedInsert (fun i j => key j ≤ key i) x l).Pairwise
        (fun i j => key j < key i ∨ (key i = key j ∧ i < j)) := by
  intro l
  induction l with
  | nil =>
    intro _ _
    simp [List.orderedInsert]
  | cons y ys ih =>
    intro hP hx
    by_cases hr : key y ≤ key x
    · rw [List.orderedInsert, if_pos hr]
      constructor
      · intro z hz
        have hkz : key z ≤ key x := by
          rcases List.mem_cons.1 hz with rfl | hz2
          · exact hr
          · rcases List.rel_of_pairwise_cons hP hz2 with h | ⟨he, _⟩
            · exact le_trans (le_of_lt h) hr
            · exact le_trans (le_of_eq he.symm) hr
        rcases Nat.lt_or_ge (key z) (key x) with h | h
        · exact Or.inl h
        · exact Or.inr ⟨Nat.le_antisymm h hkz, hx z hz⟩
      · exact hP
    · rw [List.orderedInsert, if_neg hr]
      constructor
      · intro z hz
        rw [List.mem_orderedInsert] at hz
        rcases hz with rfl | hz2
        · exact Or.inl (Nat.lt_of_not_le hr)
        · exact List.rel_of_pairwise_cons hP hz2
      · exact ih (List.Pairwise.of_cons hP) fun z hz => hx z (List.mem_cons_of_mem _ hz)

/-- Stability of the descending insertion sort on distinct keys drawn from
an increasing index list: the result is pairwise "strictly greater key, or
equal key and smaller (earlier) input index". -/
theorem insertionSort_pairwise_desc (key : Nat → Nat) :
    ∀ (l : List Nat), l.Pairwise (fun i j => i < j) →
      (List.insertionSort (fun i j => key j ≤ key i) l).Pairwise
        (fun i j => key j < key i ∨ (key i = key j ∧ i < j)) := by
  intro l
  induction l with
  | nil => intro _; simp [List.insertionSort]
  | cons x xs ih =>
    intro hl
    rw [List.insertionSort]
    exact orderedInsert_pairwise_desc key x _
      (ih (List.Pairwise.of_cons hl))
      (fun y hy => List.rel_of_pairwise_cons hl
        ((List.perm_insertionSort _ xs).mem_iff.1 hy))

/-- The boolean test `find_suitable_room` applies to a candidate room is
exactly the declarative `SuitableRoom` predicate. -/
theorem suitableRoom_iff (sec : Section) (req : List String)
    (cal : String → List Period) (r : Room) :
    (sec.capacity ≤ r.capacity && r.has_features req
      && sec.periods.all (fun p =>
          !((cal r.id).contains p) && r.is_available p)) = true
    ↔ SuitableRoom sec req cal r := by
  simp [SuitableRoom, Room.has_features, Room.is_available, List.all_eq_true,
    Bool.and_eq_true, contains_iff_mem, and_assoc]

/-- C7: `assign_rooms` processes the sections in decreasing required-feature
count (stable: equal counts keep input order), scans the rooms stable-sorted
ascending by capacity and books each section into the FIRST suitable room of
that scan (every earlier room fails capacity, features, or availability); a
section for which no room is suitable is left untouched, keeping
`room_id = none`. Consequently (on pipeline input, where no section has a
room yet) every assigned section's room is an input room with enough
capacity, all required features, no clash with the room's unavailability,
and no room is double-booked across sections. -/
theorem c7_assign_rooms (sections : List Section) (rooms : List Room)
    (courses : List Course)
    (hnone : ∀ sec ∈ sections, sec.room_id = none) :
    ((sectionOrder courses sections).Perm (List.range sections.length)
      ∧ (sectionOrder courses sections).Pairwise (fun i j =>
          featureCount courses (sections.getD j default)
            < featureCount courses (sections.getD i default)
          ∨ (featureCount courses (sections.getD i default)
              = featureCount courses (sections.getD j default) ∧ i < j)))
    ∧ ((sortedRoomList rooms).Perm rooms
      ∧ (sortedRoomList rooms).Pairwise (fun a b => a.capacity ≤ b.capacity))
    ∧ (∀ (sec : Section) (req : List String) (cal : String → List Period),
        (∀ r, find_suitable_room sec (sortedRoomList rooms) req cal = some r →
            SuitableRoom sec req cal r
            ∧ ∃ pre suf, sortedRoomList rooms = pre ++ r :: suf
                ∧ ∀ r2 ∈ pre, ¬ SuitableRoom sec req cal r2)
        ∧ (find_suitable_room sec (sortedRoomList rooms) req cal = none →
            ∀ r2 ∈ rooms, ¬ SuitableRoom sec req cal r2))
    ∧ (∀ (secs : List Section) (cal : String → List Period) (idx : Nat),
        (∀ r2 ∈ rooms, ¬ SuitableRoom (secs.getD idx default)
            (requiredFeatures courses (secs.getD idx default)) cal r2) →
        roomStep courses (sortedRoomList rooms) (secs, cal) idx = (secs, cal))
    ∧ ∀ i rid,
      ((assign_rooms sections rooms courses).getD i default).room_id = some rid →
      (∃ r ∈ rooms, r.id = rid
        ∧ ((assign_rooms sections rooms courses).getD i default).capacity ≤ r.capacity
        ∧ (∀ f ∈ requiredFeatures courses
              ((assign_rooms sections rooms courses).getD i default), f ∈ r.features)
        ∧ ∀ p ∈ ((assign_rooms sections rooms courses).getD i default).periods,
            p ∉ r.unavailable)
      ∧ ∀ j, j ≠ i →
          ((assign_rooms sections rooms courses).getD j default).room_id = some rid →
          ∀ p ∈ ((assign_rooms sections rooms courses).getD i default).periods,
            p ∉ ((assign_rooms sections rooms courses).getD j default).periods := by
  have hsr : ∀ r ∈ sortedRoomList rooms, r ∈ rooms := by
    intro r hr
    exact (List.perm_insertionSort _ rooms).mem_iff.1 hr
  have hfind : ∀ (sec : Section) (req : List String) (cal : String → List Period),
      (∀ r, find_suitable_room sec (sortedRoomList rooms) req cal = some r →
          SuitableRoom sec req cal r
          ∧ ∃ pre suf, sortedRoomList rooms = pre ++ r :: suf
              ∧ ∀ r2 ∈ pre, ¬ SuitableRoom sec req cal r2)
      ∧ (find_suitable_room sec (sortedRoomList rooms) req cal = none →
          ∀ r2 ∈ rooms, ¬ SuitableRoom sec req cal r2) := by
    intro sec req cal
    constructor
    · intro r hf
      unfold find_suitable_room at hf
      have hpred := List.find?_some hf
      refine ⟨(suitableRoom_iff sec req cal r).1 hpred, ?_⟩
      obtain ⟨l1, l2, heq, hall⟩ := find?_first _ _ _ hf
      refine ⟨l1, l2, heq, ?_⟩
      intro r2 hr2 hs
      have h1 := (suitableRoom_iff sec req cal r2).2 hs
      rw [hall r2 hr2] at h1
      exact Bool.noConfusion h1
    · intro hf r2 hr2 hs
      unfold find_suitable_room at hf
      have hmem : r2 ∈ sortedRoomList rooms :=
        (List.perm_insertionSort _ rooms).mem_iff.2 hr2
      exact List.find?_eq_none.1 hf r2 hmem ((suitableRoom_iff sec req cal r2).2 hs)
  refine ⟨⟨?_, ?_⟩, ⟨?_, ?_⟩, hfind, ?_, ?_⟩
  · exact List.perm_insertionSort _ _
  · exact insertionSort_pairwise_desc
      (fun i => featureCount courses (sections.getD i default)) _
      (List.pairwise_lt_range _)
  · exact List.perm_insertionSort _ _
  · haveI : IsTotal Room (fun a b => a.capacity ≤ b.capacity) :=
      ⟨fun a b => Nat.le_total _ _⟩
    haveI : IsTrans Room (fun a b => a.capacity ≤ b.capacity) :=
      ⟨fun a b c hab hbc => Nat.le_trans hab hbc⟩
    exact List.sorted_insertionSort _ _
  · intro secs cal idx hno
    have hf : find_suitable_room (secs.getD idx default) (sortedRoomList rooms)
        (requiredFeatures courses (secs.getD idx default)) cal = none := by
      cases hf2 : find_suitable_room (secs.getD idx default) (sortedRoomList rooms)
          (requiredFeatures courses (secs.getD idx default)) cal with
      | none => rfl
      | some r =>
        exfalso
        have hsuit := ((hfind _ _ cal).1 r hf2).1
        unfold find_suitable_room at hf2
        exact hno r (hsr r (List.mem_of_find?_eq_some hf2)) hsuit
    simp only [roomStep, hf]
  · have hinit : RoomInv rooms courses (sections, fun _ => []) := by
      intro i rid hi
      exfalso
      by_cases hlen : i < sections.length
      · have hgm : sections.getD i default ∈ sections := by
          rw [List.getD_eq_getElem?_getD, List.getElem?_eq_getElem hlen]
          exact List.getElem_mem hlen
        rw [hnone _ hgm] at hi
        exact Option.noConfusion hi
      · rw [getD_of_length_le _ _ (Nat.le_of_not_lt hlen)] at hi
        exact Option.noConfusion hi
    have hfin := foldl_roomStep_inv rooms courses _ hsr
      (sectionOrder courses sections) sections (fun _ => []) hinit
    intro i rid hi
    have h2 := hfin i rid hi
    exact ⟨h2.2.1, h2.2.2⟩

/-- Closed witness for `c7_assign_rooms`: a single section and a single
adequate room. -/
theorem c7_assign_rooms_witness :
    ((assign_rooms [⟨"math-1", "math", none, none, [(0, 0)], [], 25⟩]
        [⟨"r1", "Room 1", 30, [], []⟩]
        [⟨"math", "Math", 25, 5, none, [], 1⟩]).getD 0 default).room_id = some "r1"
    ∧ (∃ r ∈ [(⟨"r1", "Room 1", 30, [], []⟩ : Room)], r.id = "r1"
        ∧ ((assign_rooms [⟨"math-1", "math", none, none, [(0, 0)], [], 25⟩]
              [⟨"r1", "Room 1", 30, [], []⟩]
              [⟨"math", "Math", 25, 5, none, [], 1⟩]).getD 0 default).capacity ≤ r.capacity
        ∧ (∀ f ∈ requiredFeatures [⟨"math", "Math", 25, 5, none, [], 1⟩]
              ((assign_rooms [⟨"math-1", "math", none, none, [(0, 0)], [], 25⟩]
                [⟨"r1", "Room 1", 30, [], []⟩]
                [⟨"math", "Math", 25, 5, none, [], 1⟩]).getD 0 default), f ∈ r.features)
        ∧ ∀ p ∈ ((assign_rooms [⟨"math-1", "math", none, none, [(0, 0)], [], 25⟩]
              [⟨"r1", "Room 1", 30, [], []⟩]
              [⟨"math", "Math", 25, 5, none, [], 1⟩]).getD 0 default).periods,
            p ∉ r.unavailable) :=
  ⟨by decide,
   ((c7_assign_rooms [⟨"math-1", "math", none, none, [(0, 0)], [], 25⟩]
      [⟨"r1", "Room 1", 30, [], []⟩] [⟨"math", "Math", 25, 5, none, [], 1⟩]
      (by decide)).2.2.2.2 0 "r1" (by decide)).1⟩

theorem le_listMax : ∀ {l : List Nat} {x : Nat}, x ∈ l → x ≤ listMax l := by
  intro l
  induction l with
  | nil => intro x hx; simp at hx
  | cons a xs ih =>
    intro x hx
    rcases List.mem_cons.1 hx with rfl | hx2
    · exact le_max_left _ _
    · exact le_trans (ih hx2) (le_max_right _ _)

theorem listMax_le : ∀ {l : List Nat} {m : Nat}, (∀ x ∈ l, x ≤ m) → listMax l ≤ m := by
  intro l
  induction l with
  | nil => intro m _; exact Nat.zero_le m
  | cons a xs ih =>
    intro m h
    exact max_le (h a (List.mem_cons_self a xs)) (ih fun x hx => h x (List.mem_cons_of_mem a hx))

theorem listMin_le : ∀ {l : List Nat} {x : Nat}, x ∈ l → listMin l ≤ x := by
  intro l
  induction l with
  | nil => intro x hx; simp at hx
  | cons a xs ih =>
    intro x hx
    cases xs with
    | nil =>
      simp at hx
      simp [listMin, hx]
    | cons b ys =>
      rcases List.mem_cons.1 hx with rfl | hx2
      · exact le_trans (min_le_left _ _) (le_refl _)
      · exact le_trans (min_le_right _ _) (ih hx2)

theorem le_listMin : ∀ {l : List Nat} {m : Nat}, l ≠ [] → (∀ x ∈ l, m ≤ x) →
    m ≤ listMin l := by
  intro l
  induction l with
  | nil => intro m h _; exact absurd rfl h
  | cons a xs ih =>
    intro m _ h
    cases xs with
    | nil => exact h a (by simp)
    | cons b ys =>
      refine le_min (h a (by simp)) (ih (by simp) ?_)
      intro x hx
      exact h x (List.mem_cons_of_mem a hx)

theorem headD_mem : ∀ {l : List Nat}, l ≠ [] → l.headD 0 ∈ l := by
  intro l h
  cases l with
  | nil => exact absurd rfl h
  | cons a xs => simp

theorem getLastD_mem : ∀ {l : List Nat}, l ≠ [] → l.getLastD 0 ∈ l := by
  intro l
  induction l with
  | nil => intro h; exact absurd rfl h
  | cons a xs ih =>
    intro _
    cases xs with
    | nil => simp
    | cons b ys =>
      have := ih (by simp)
      rw [List.getLastD_cons]
      exact List.mem_cons_of_mem a this

theorem sorted_headD_le (f : Nat → Nat) (l : List Nat)
    (hl : l.Pairwise (fun a b => f a ≤ f b)) : ∀ x ∈ l, f (l.headD 0) ≤ f x := by
  cases l with
  | nil => intro x hx; simp at hx
  | cons a xs =>
    intro x hx
    rcases List.mem_cons.1 hx with rfl | hx2
    · exact le_refl _
    · exact List.rel_of_pairwise_cons hl hx2

theorem sorted_le_getLastD (f : Nat → Nat) : ∀ (l : List Nat),
    l.Pairwise (fun a b => f a ≤ f b) → ∀ x ∈ l, f x ≤ f (l.getLastD 0) := by
  intro l
  induction l with
  | nil => intro _ x hx; simp at hx
  | cons a xs ih =>
    intro hl x hx
    cases xs with
    | nil =>
      simp at hx
      simp [hx]
    | cons b ys =>
      rw [List.getLastD_cons]
      rcases List.mem_cons.1 hx with rfl | hx2
      · have hmem : (b :: ys).getLastD 0 ∈ b :: ys := getLastD_mem (by simp)
        exact List.rel_of_pairwise_cons hl hmem
      · exact ih (List.Pairwise.of_cons hl) x hx2

theorem enroll_capacity (sec : Section) (sid : String) :
    (sec.enroll sid).capacity = sec.capacity := by
  unfold Section.enroll
  split <;> rfl

theorem enroll_periods (sec : Section) (sid : String) :
    (sec.enroll sid).periods = sec.periods := by
  unfold Section.enroll
  split <;> rfl

theorem enroll_course_id (sec : Section) (sid : String) :
    (sec.enroll sid).course_id = sec.course_id := by
  unfold Section.enroll
  split <;> rfl

theorem unenroll_capacity (sec : Section) (sid : String) :
    (sec.unenroll sid).capacity = sec.capacity := rfl

theorem unenroll_periods (sec : Section) (sid : String) :
    (sec.unenroll sid).periods = sec.periods := rfl

theorem unenroll_course_id (sec : Section) (sid : String) :
    (sec.unenroll sid).course_id = sec.course_id := rfl

theorem enroll_roster_mem (sec : Section) (sid x : String) :
    x ∈ (sec.enroll sid).enrolled_students ↔
      x ∈ sec.enrolled_students ∨ x = sid := by
  unfold Section.enroll
  by_cases h : sec.has_student sid = true
  · rw [if_pos h]
    constructor
    · exact Or.inl
    · rintro (hx | rfl)
      · exact hx
      · simpa [Section.has_student] using h
  · rw [if_neg h]
    simp

theorem unenroll_roster_mem (sec : Section) (sid x : String) :
    x ∈ (sec.unenroll sid).enrolled_students ↔
      x ∈ sec.enrolled_students ∧ x ≠ sid := by
  unfold Section.unenroll
  simp [List.mem_filter]

theorem enroll_roster_length (sec : Section) (sid : String) :
    ((sec.enroll sid).enrolled_students).length = sec.enrolled_students.length
    ∨ ((sec.enroll sid).enrolled_students).length = sec.enrolled_students.length + 1 := by
  unfold Section.enroll
  by_cases h : sec.has_student sid = true
  · rw [if_pos h]
    exact Or.inl rfl
  · rw [if_neg h]
    right
    simp

theorem unenroll_roster_length_le (sec : Section) (sid : String) :
    ((sec.unenroll sid).enrolled_students).length ≤ sec.enrolled_students.length := by
  unfold Section.unenroll
  exact List.length_filter_le _ _

theorem unenroll_roster_length_nodup (sec : Section) (sid : String)
    (hnd : sec.enrolled_students.Nodup) (hmem : sid ∈ sec.enrolled_students) :
    ((sec.unenroll sid).enrolled_students).length + 1
      = sec.enrolled_students.length := by
  unfold Section.unenroll
  dsimp only
  have hsplit := List.length_eq_length_filter_add
    (l := sec.enrolled_students) (fun s => s == sid)
  have hcount : (sec.enrolled_students.filter (fun s => s == sid)).length = 1 := by
    rw [← List.countP_eq_length_filter]
    have := List.count_eq_one_of_mem hnd hmem
    simpa [List.count] using this
  have hpred : (sec.enrolled_students.filter (fun a => !(a == sid)))
      = sec.enrolled_students.filter (fun s => s != sid) := rfl
  rw [hpred] at hsplit
  omega

theorem enroll_nodup (sec : Section) (sid : String)
    (hnd : sec.enrolled_students.Nodup) :
    ((sec.enroll sid).enrolled_students).Nodup := by
  unfold Section.enroll
  by_cases h : sec.has_student sid = true
  · rw [if_pos h]
    exact hnd
  · rw [if_neg h]
    have hmem : sid ∉ sec.enrolled_students := by
      simpa [Section.has_student] using h
    simp [List.nodup_append, hnd, hmem]

theorem unenroll_nodup (sec : Section) (sid : String)
    (hnd : sec.enrolled_students.Nodup) :
    ((sec.unenroll sid).enrolled_students).Nodup := by
  unfold Section.unenroll
  exact hnd.filter _

theorem roster_lt_length (sections : List Section) (F : Nat) (sid : String)
    (h : sid ∈ (sections.getD F default).enrolled_students) :
    F < sections.length := by
  by_contra hF
  rw [getD_of_length_le _ _ (Nat.le_of_not_lt hF)] at h
  simp [default] at h

theorem can_move_lt_length (sid : String) (F T : Nat) (sections : List Section)
    (sched : String → List Period)
    (h : can_move_student sid F T sections sched = true) :
    T < sections.length := by
  by_contra hT
  unfold can_move_student at h
  rw [getD_of_length_le _ _ (Nat.le_of_not_lt hT)] at h
  simp [Section.is_full, default] at h

theorem can_move_spec (sid : String) (F T : Nat) (sections : List Section)
    (sched : String → List Period)
    (h : can_move_student sid F T sections sched = true) :
    (sections.getD T default).is_full = false
    ∧ ∀ p ∈ (sections.getD T default).periods,
        p ∈ sched sid → p ∈ (sections.getD F default).periods := by
  unfold can_move_student at h
  by_cases hfull : (sections.getD T default).is_full = true
  · rw [if_pos hfull] at h
    exact absurd h (by simp)
  · rw [if_neg hfull] at h
    refine ⟨by simpa using hfull, ?_⟩
    intro p hp hsched
    by_contra hnf
    simp only [Bool.not_eq_true', List.any_eq_false] at h
    have h2 := h p hp
    apply h2
    rw [List.getD_eq_getElem?_getD] at hnf
    simp [List.mem_filter, hsched, hnf]

theorem move_student_length (sid : String) (F T : Nat) (sections : List Section)
    (sched : String → List Period) :
    (move_student sid F T sections sched).1.length = sections.length := by
  simp [move_student]

theorem move_student_getD_other (sid : String) (F T : Nat)
    (sections : List Section) (sched : String → List Period) (j : Nat)
    (hjF : j ≠ F) (hjT : j ≠ T) :
    (move_student sid F T sections sched).1.getD j default
      = sections.getD j default := by
  simp only [move_student]
  rw [getD_set_ne _ _ _ _ (fun hc => hjT hc.symm),
    getD_set_ne _ _ _ _ (fun hc => hjF hc.symm)]

theorem move_student_getD_from (sid : String) (F T : Nat)
    (sections : List Section) (sched : String → List Period)
    (hFT : F ≠ T) (hF : F < sections.length) :
    (move_student sid F T sections sched).1.getD F default
      = (sections.getD F default).unenroll sid := by
  simp only [move_student]
  rw [getD_set_ne _ _ _ _ (fun hc => hFT hc.symm), getD_set_self _ _ _ hF]

theorem move_student_getD_to (sid : String) (F T : Nat)
    (sections : List Section) (sched : String → List Period)
    (hFT : F ≠ T) (hT : T < sections.length) :
    (move_student sid F T sections sched).1.getD T default
      = (sections.getD T default).enroll sid := by
  simp only [move_student]
  rw [getD_set_self _ _ _ (by simpa using hT), getD_set_ne _ _ _ _ hFT]

theorem move_student_sched (sid : String) (F T : Nat)
    (sections : List Section) (sched : String → List Period) (s : String) :
    (move_student sid F T sections sched).2 s
      = if s = sid
        then (sched s).filter
            (fun p => !((sections.getD F default).periods.contains p))
          ++ (sections.getD T default).periods
        else sched s := rfl

theorem move_capOk (sid : String) (F T : Nat) (sections : List Section)
    (sched : String → List Period)
    (hcm : can_move_student sid F T sections sched = true)
    (hmem : sid ∈ (sections.getD F default).enrolled_students)
    (hFT : F ≠ T) (hcap : CapOk sections) :
    CapOk (move_student sid F T sections sched).1 := by
  have hF := roster_lt_length sections F sid hmem
  have hT := can_move_lt_length sid F T sections sched hcm
  have hfull := (can_move_spec sid F T sections sched hcm).1
  intro i
  by_cases hiT : i = T
  · subst hiT
    rw [move_student_getD_to sid F i sections sched hFT hT]
    unfold Section.enrollment
    rw [enroll_capacity]
    rcases enroll_roster_length (sections.getD i default) sid with heq | heq
    · rw [heq]
      exact hcap i
    · rw [heq]
      have hlt : ¬ ((sections.getD i default).enrolled_students.length
          ≥ (sections.getD i default).capacity) := by
        simpa [Section.is_full] using hfull
      omega
  · by_cases hiF : i = F
    · subst hiF
      rw [move_student_getD_from sid i T sections sched hFT hF]
      unfold Section.enrollment
      rw [unenroll_capacity]
      have h1 := unenroll_roster_length_le (sections.getD i default) sid
      have h2 := hcap i
      unfold Section.enrollment at h2
      omega
    · rw [move_student_getD_other sid F T sections sched i hiF hiT]
      exact hcap i

theorem move_nodup (sid : String) (F T : Nat) (sections : List Section)
    (sched : String → List Period)
    (hcm : can_move_student sid F T sections sched = true)
    (hmem : sid ∈ (sections.getD F default).enrolled_students)
    (hFT : F ≠ T) (hnd : NodupRosters sections) :
    NodupRosters (move_student sid F T sections sched).1 := by
  have hF := roster_lt_length sections F sid hmem
  have hT := can_move_lt_length sid F T sections sched hcm
  intro i
  by_cases hiT : i = T
  · subst hiT
    rw [move_student_getD_to sid F i sections sched hFT hT]
    exact enroll_nodup _ _ (hnd i)
  · by_cases hiF : i = F
    · subst hiF
      rw [move_student_getD_from sid i T sections sched hFT hF]
      exact unenroll_nodup _ _ (hnd i)
    · rw [move_student_getD_other sid F T sections sched i hiF hiT]
      exact hnd i

theorem move_cf_acc (sid : String) (F T : Nat) (sections : List Section)
    (sched : String → List Period)
    (hcm : can_move_student sid F T sections sched = true)
    (hmem : sid ∈ (sections.getD F default).enrolled_students)
    (hFT : F ≠ T)
    (hCF : ConflictFree sections) (hAcc : Accurate sections sched) :
    ConflictFree (move_student sid F T sections sched).1
    ∧ Accurate (move_student sid F T sections sched).1
        (move_student sid F T sections sched).2 := by
  have hF := roster_lt_length sections F sid hmem
  have hT := can_move_lt_length sid F T sections sched hcm
  have hdisj := (can_move_spec sid F T sections sched hcm).2
  have hgF := move_student_getD_from sid F T sections sched hFT hF
  have hgT := move_student_getD_to sid F T sections sched hFT hT
  have hgO := move_student_getD_other sid F T sections sched
  have hrost : ∀ j x, (x ∈ ((move_student sid F T sections sched).1.getD j
        default).enrolled_students) ↔
      ((x ∈ (sections.getD j default).enrolled_students ∧ (j = F → x ≠ sid))
       ∨ (j = T ∧ x = sid)) := by
    intro j x
    by_cases hjF : j = F
    · subst hjF
      rw [hgF, unenroll_roster_mem]
      constructor
      · rintro ⟨h1, h2⟩
        exact Or.inl ⟨h1, fun _ => h2⟩
      · rintro (⟨h1, h2⟩ | ⟨h1, _⟩)
        · exact ⟨h1, h2 rfl⟩
        · exact absurd h1 hFT
    · by_cases hjT : j = T
      · subst hjT
        rw [hgT, enroll_roster_mem]
        constructor
        · rintro (h1 | h1)
          · exact Or.inl ⟨h1, fun hc => absurd hc hjF⟩
          · exact Or.inr ⟨rfl, h1⟩
        · rintro (⟨h1, _⟩ | ⟨_, rfl⟩)
          · exact Or.inl h1
          · exact Or.inr rfl
      · rw [hgO j hjF hjT]
        constructor
        · intro h1
          exact Or.inl ⟨h1, fun hc => absurd hc hjF⟩
        · rintro (⟨h1, _⟩ | ⟨h1, _⟩)
          · exact h1
          · exact absurd h1 hjT
  have hper : ∀ j, ((move_student sid F T sections sched).1.getD j default).periods
      = (sections.getD j default).periods := by
    intro j
    by_cases hjF : j = F
    · subst hjF
      rw [hgF, unenroll_periods]
    · by_cases hjT : j = T
      · subst hjT
        rw [hgT, enroll_periods]
      · rw [hgO j hjF hjT]
  constructor
  · intro x p i j hij hxi hxj hpi hpj
    rw [hrost] at hxi hxj
    rw [hper] at hpi hpj
    by_cases hx : x = sid
    · subst hx
      rcases hxi with ⟨hxi1, hxi2⟩ | ⟨hiT, _⟩
      · rcases hxj with ⟨hxj1, hxj2⟩ | ⟨hjT, _⟩
        · exact hCF x p i j hij hxi1 hxj1 hpi hpj
        · subst hjT
          have hpsched : p ∈ sched x := (hAcc x p).2 ⟨i, hxi1, hpi⟩
          have hpF : p ∈ (sections.getD F default).periods := hdisj p hpj hpsched
          by_cases hiF : i = F
          · exact absurd rfl (hxi2 hiF)
          · exact hCF x p i F hiF hxi1 hmem hpi hpF
      · subst hiT
        rcases hxj with ⟨hxj1, hxj2⟩ | ⟨hjT, _⟩
        · have hpsched : p ∈ sched x := (hAcc x p).2 ⟨j, hxj1, hpj⟩
          have hpF : p ∈ (sections.getD F default).periods := hdisj p hpi hpsched
          by_cases hjF : j = F
          · exact absurd rfl (hxj2 hjF)
          · exact hCF x p j F hjF hxj1 hmem hpj hpF
        · exact hij hjT.symm
    · have hxi2 : x ∈ (sections.getD i default).enrolled_students := by
        rcases hxi with ⟨h1, _⟩ | ⟨_, hsx⟩
        · exact h1
        · exact absurd hsx hx
      have hxj2 : x ∈ (sections.getD j default).enrolled_students := by
        rcases hxj with ⟨h1, _⟩ | ⟨_, hsx⟩
        · exact h1
        · exact absurd hsx hx
      exact hCF x p i j hij hxi2 hxj2 hpi hpj
  · intro x p
    rw [move_student_sched]
    by_cases hx : x = sid
    · subst hx
      rw [if_pos rfl]
      constructor
      · intro hp
        rcases List.mem_append.1 hp with hp1 | hp2
        · rw [List.mem_filter] at hp1
          obtain ⟨hps, hpc⟩ := hp1
          have hpF : p ∉ (sections.getD F default).periods := by
            simpa using hpc
          obtain ⟨i, hxi, hpi⟩ := (hAcc x p).1 hps
          refine ⟨i, ?_, ?_⟩
          · rw [hrost]
            exact Or.inl ⟨hxi, fun hiF => absurd (hiF ▸ hpi) hpF⟩
          · rw [hper]
            exact hpi
        · exact ⟨T, by rw [hrost]; exact Or.inr ⟨rfl, rfl⟩, by rw [hper]; exact hp2⟩
      · rintro ⟨i, hxi, hpi⟩
        rw [hrost] at hxi
        rw [hper] at hpi
        rcases hxi with ⟨hold, hnf⟩ | ⟨hiT, _⟩
        · by_cases hiF : i = F
          · exact absurd rfl (hnf hiF)
          · have hps : p ∈ sched x := (hAcc x p).2 ⟨i, hold, hpi⟩
            apply List.mem_append_left
            rw [List.mem_filter]
            refine ⟨hps, ?_⟩
            have hpF : p ∉ (sections.getD F default).periods := by
              intro hc
              exact hCF x p i F hiF hold hmem hpi hc
            simpa using hpF
        · subst hiT
          exact List.mem_append_right _ hpi
    · rw [if_neg hx]
      constructor
      · intro hp
        obtain ⟨i, hxi, hpi⟩ := (hAcc x p).1 hp
        refine ⟨i, ?_, ?_⟩
        · rw [hrost]
          exact Or.inl ⟨hxi, fun _ => hx⟩
        · rw [hper]
          exact hpi
      · rintro ⟨i, hxi, hpi⟩
        rw [hrost] at hxi
        rw [hper] at hpi
        rcases hxi with ⟨hold, _⟩ | ⟨_, hsx⟩
        · exact (hAcc x p).2 ⟨i, hold, hpi⟩
        · exact absurd hsx hx

theorem getD_eq_getElem {α : Type} [Inhabited α] (l : List α) (i : Nat)
    (h : i < l.length) : l.getD i default = l[i] := by
  rw [List.getD_eq_getElem?_getD, List.getElem?_eq_getElem h]
  rfl

theorem buildSchedules_accurate (sections : List Section) :
    Accurate sections (buildSchedules sections) := by
  intro sid p
  unfold buildSchedules
  simp only [List.mem_flatMap, List.mem_filter]
  constructor
  · rintro ⟨sec, ⟨hsec_mem, hcont⟩, hp⟩
    obtain ⟨i, hi, hieq⟩ := List.mem_iff_getElem.1 hsec_mem
    refine ⟨i, ?_, ?_⟩
    · rw [getD_eq_getElem _ _ hi, hieq]
      simpa using hcont
    · rw [getD_eq_getElem _ _ hi, hieq]
      exact hp
  · rintro ⟨i, hxi, hpi⟩
    have hi := roster_lt_length sections i sid hxi
    refine ⟨sections.getD i default, ⟨?_, ?_⟩, hpi⟩
    · rw [getD_eq_getElem _ _ hi]
      exact List.getElem_mem hi
    · simpa using hxi

theorem move_course_id (sid : String) (F T : Nat) (sections : List Section)
    (sched : String → List Period) : ∀ j,
    ((move_student sid F T sections sched).1.getD j default).course_id
      = (sections.getD j default).course_id := by
  intro j
  simp only [move_student]
  by_cases hjT : j = T
  · subst hjT
    by_cases hlen : j < sections.length
    · rw [getD_set_self _ _ _ (by simpa using hlen), enroll_course_id]
      by_cases hjF : j = F
      · subst hjF
        rw [getD_set_self _ _ _ hlen, unenroll_course_id]
      · rw [getD_set_ne _ _ _ _ (fun hc => hjF hc.symm)]
    · rw [List.set_eq_of_length_le (by simpa using Nat.le_of_not_lt hlen)]
      rw [getD_of_length_le _ _ (by simpa using Nat.le_of_not_lt hlen),
        getD_of_length_le _ _ (Nat.le_of_not_lt hlen)]
  · rw [getD_set_ne _ _ _ _ (fun hc => hjT hc.symm)]
    by_cases hjF : j = F
    · subst hjF
      by_cases hlen : j < sections.length
      · rw [getD_set_self _ _ _ hlen, unenroll_course_id]
      · rw [List.set_eq_of_length_le (Nat.le_of_not_lt hlen)]
    · rw [getD_set_ne _ _ _ _ (fun hc => hjF hc.symm)]

theorem courseGroup_congr (a b : List Section)
    (hlen : a.length = b.length)
    (hcid : ∀ i, (a.getD i default).course_id = (b.getD i default).course_id) :
    ∀ cid, courseGroup a cid = courseGroup b cid := by
  intro cid
  unfold courseGroup
  rw [hlen]
  apply List.filter_congr
  intro i _
  have h := hcid i
  rw [List.getD_eq_getElem?_getD, List.getD_eq_getElem?_getD] at h
  simp [h]

theorem courseGroup_mem (sections : List Section) (cid : String) (i : Nat) :
    i ∈ courseGroup sections cid ↔
      i < sections.length ∧ (sections.getD i default).course_id = cid := by
  unfold courseGroup
  simp [List.mem_filter, List.mem_range]

theorem move_enrollment (sid : String) (F T : Nat) (sections : List Section)
    (sched : String → List Period)
    (hcm : can_move_student sid F T sections sched = true)
    (hmem : sid ∈ (sections.getD F default).enrolled_students)
    (hFT : F ≠ T) (hnd : NodupRosters sections) :
    ((move_student sid F T sections sched).1.getD F default).enrollment + 1
        = (sections.getD F default).enrollment
    ∧ ((move_student sid F T sections sched).1.getD T default).enrollment
        ≤ (sections.getD T default).enrollment + 1
    ∧ (sections.getD T default).enrollment
        ≤ ((move_student sid F T sections sched).1.getD T default).enrollment
    ∧ ∀ j, j ≠ F → j ≠ T →
        ((move_student sid F T sections sched).1.getD j default).enrollment
          = (sections.getD j default).enrollment := by
  have hF := roster_lt_length sections F sid hmem
  have hT := can_move_lt_length sid F T sections sched hcm
  refine ⟨?_, ?_, ?_, ?_⟩
  · rw [move_student_getD_from sid F T sections sched hFT hF]
    exact unenroll_roster_length_nodup _ _ (hnd F) hmem
  · rw [move_student_getD_to sid F T sections sched hFT hT]
    unfold Section.enrollment
    rcases enroll_roster_length (sections.getD T default) sid with heq | heq <;> omega
  · rw [move_student_getD_to sid F T sections sched hFT hT]
    unfold Section.enrollment
    rcases enroll_roster_length (sections.getD T default) sid with heq | heq <;> omega
  · intro j hjF hjT
    rw [move_student_getD_other sid F T sections sched j hjF hjT]

theorem balanceCourse_cases (sections : List Section)
    (sched : String → List Period) (flag : Bool) (g : List Nat) :
    balanceCourse (sections, sched, flag) g = (sections, sched, flag)
    ∨ ∃ sid F T, F ∈ g ∧ T ∈ g
        ∧ can_move_student sid F T sections sched = true
        ∧ sid ∈ (sections.getD F default).enrolled_students
        ∧ (sections.getD T default).enrollment + 1
            < (sections.getD F default).enrollment
        ∧ (∀ i ∈ g, (sections.getD i default).enrollment
            ≤ (sections.getD F default).enrollment)
        ∧ (∀ i ∈ g, (sections.getD T default).enrollment
            ≤ (sections.getD i default).enrollment)
        ∧ balanceCourse (sections, sched, flag) g
            = ((move_student sid F T sections sched).1,
               (move_student sid F T sections sched).2, true) := by
  have hbc : balanceCourse (sections, sched, flag) g
      = if g.length < 2 then (sections, sched, flag)
        else
          let sorted := List.insertionSort
            (fun i j => (sections.getD i default).enrollment
                ≤ (sections.getD j default).enrollment) g
          let smallest := sorted.headD 0
          let largest := sorted.getLastD 0
          if (sections.getD largest default).enrollment
              ≤ (sections.getD smallest default).enrollment + 1 then
            (sections, sched, flag)
          else
            match (sections.getD largest default).enrolled_students.find?
                (fun sid => can_move_student sid largest smallest sections sched) with
            | some sid =>
                ((move_student sid largest smallest sections sched).1,
                 (move_student sid largest smallest sections sched).2, true)
            | none => (sections, sched, flag) := rfl
  rw [hbc]
  by_cases hlen : g.length < 2
  · rw [if_pos hlen]
    exact Or.inl rfl
  · rw [if_neg hlen]
    dsimp only
    have hsorted : (List.insertionSort
        (fun i j => (sections.getD i default).enrollment
            ≤ (sections.getD j default).enrollment) g).Pairwise
        (fun a b => (sections.getD a default).enrollment
            ≤ (sections.getD b default).enrollment) := by
      haveI : IsTotal Nat (fun i j => (sections.getD i default).enrollment
          ≤ (sections.getD j default).enrollment) := ⟨fun a b => le_total _ _⟩
      haveI : IsTrans Nat (fun i j => (sections.getD i default).enrollment
          ≤ (sections.getD j default).enrollment) :=
        ⟨fun a b c hab hbc2 => le_trans hab hbc2⟩
      exact List.sorted_insertionSort _ g
    have hperm := List.perm_insertionSort
      (fun i j => (sections.getD i default).enrollment
          ≤ (sections.getD j default).enrollment) g
    have hne : (List.insertionSort
        (fun i j => (sections.getD i default).enrollment
            ≤ (sections.getD j default).enrollment) g) ≠ [] := by
      intro hc
      have hle := hperm.length_eq
      rw [hc] at hle
      simp at hle
      omega
    have hTg : (List.insertionSort
        (fun i j => (sections.getD i default).enrollment
            ≤ (sections.getD j default).enrollment) g).headD 0 ∈ g :=
      hperm.mem_iff.1 (headD_mem hne)
    have hFg : (List.insertionSort
        (fun i j => (sections.getD i default).enrollment
            ≤ (sections.getD j default).enrollment) g).getLastD 0 ∈ g :=
      hperm.mem_iff.1 (getLastD_mem hne)
    have hmax : ∀ i ∈ g, (sections.getD i default).enrollment
        ≤ (sections.getD ((List.insertionSort
            (fun i j => (sections.getD i default).enrollment
                ≤ (sections.getD j default).enrollment) g).getLastD 0)
          default).enrollment := by
      intro i hi
      exact sorted_le_getLastD (fun i => (sections.getD i default).enrollment)
        _ hsorted i (hperm.mem_iff.2 hi)
    have hmin : ∀ i ∈ g, (sections.getD ((List.insertionSort
          (fun i j => (sections.getD i default).enrollment
              ≤ (sections.getD j default).enrollment) g).headD 0)
          default).enrollment ≤ (sections.getD i default).enrollment := by
      intro i hi
      exact sorted_headD_le (fun i => (sections.getD i default).enrollment)
        _ hsorted i (hperm.mem_iff.2 hi)
    split
    · exact Or.inl rfl
    · next hdiff =>
      split
      · next sid hfind =>
        right
        refine ⟨sid, _, _, hFg, hTg, ?_, ?_, Nat.lt_of_not_le hdiff, hmax, hmin, rfl⟩
        · have hp := List.find?_some hfind
          simpa using hp
        · exact List.mem_of_find?_eq_some hfind
      · exact Or.inl rfl

theorem balanceCourse_spread (sections : List Section)
    (sched : String → List Period) (flag : Bool) (g : List Nat) (cg : String)
    (hg : g = courseGroup sections cg) (hnd : NodupRosters sections) :
    ∀ cid, spread (balanceCourse (sections, sched, flag) g).1 cid
      ≤ spread sections cid := by
  intro cid
  rcases balanceCourse_cases sections sched flag g with heq |
    ⟨sid, F, T, hFg, hTg, hcm, hmem, hlt, hmax, hmin, heq⟩
  · rw [heq]
  · rw [heq]
    dsimp only
    have hFT : F ≠ T := by
      intro hc
      rw [hc] at hlt
      omega
    obtain ⟨heF, heT1, heT2, heO⟩ :=
      move_enrollment sid F T sections sched hcm hmem hFT hnd
    have hlen := move_student_length sid F T sections sched
    have hcids := move_course_id sid F T sections sched
    have hcgeq : ∀ c, courseGroup (move_student sid F T sections sched).1 c
        = courseGroup sections c := courseGroup_congr _ _ hlen hcids
    have hFcourse : (sections.getD F default).course_id = cg :=
      ((courseGroup_mem sections cg F).1 (hg ▸ hFg)).2
    have hTcourse : (sections.getD T default).course_id = cg :=
      ((courseGroup_mem sections cg T).1 (hg ▸ hTg)).2
    unfold spread courseEnrollments
    rw [hcgeq]
    by_cases hc : cid = cg
    · subst hc
      have hmax_old : listMax ((courseGroup sections cid).map
            (fun i => (sections.getD i default).enrollment))
          = (sections.getD F default).enrollment := by
        apply le_antisymm
        · apply listMax_le
          intro x hx
          obtain ⟨i, hi, rfl⟩ := List.mem_map.1 hx
          exact hmax i (hg ▸ hi)
        · exact le_listMax (List.mem_map.2 ⟨F, hg ▸ hFg, rfl⟩)
      have hne2 : (courseGroup sections cid).map
          (fun i => (sections.getD i default).enrollment) ≠ [] :=
        List.ne_nil_of_mem (List.mem_map.2 ⟨F, hg ▸ hFg, rfl⟩)
      have hmin_old : listMin ((courseGroup sections cid).map
            (fun i => (sections.getD i default).enrollment))
          = (sections.getD T default).enrollment := by
        apply le_antisymm
        · exact listMin_le (List.mem_map.2 ⟨T, hg ▸ hTg, rfl⟩)
        · apply le_listMin hne2
          intro x hx
          obtain ⟨i, hi, rfl⟩ := List.mem_map.1 hx
          exact hmin i (hg ▸ hi)
      have hub : ∀ x ∈ (courseGroup sections cid).map
          (fun i => ((move_student sid F T sections sched).1.getD i
              default).enrollment),
          x ≤ (sections.getD F default).enrollment := by
        intro x hx
        obtain ⟨i, hi, rfl⟩ := List.mem_map.1 hx
        by_cases hiF : i = F
        · subst hiF
          omega
        · by_cases hiT : i = T
          · subst hiT
            omega
          · rw [heO i hiF hiT]
            exact hmax i (hg ▸ hi)
      have hlb : ∀ x ∈ (courseGroup sections cid).map
          (fun i => ((move_student sid F T sections sched).1.getD i
              default).enrollment),
          (sections.getD T default).enrollment ≤ x := by
        intro x hx
        obtain ⟨i, hi, rfl⟩ := List.mem_map.1 hx
        by_cases hiF : i = F
        · subst hiF
          omega
        · by_cases hiT : i = T
          · subst hiT
            omega
          · rw [heO i hiF hiT]
            exact hmin i (hg ▸ hi)
      have hne3 : (courseGroup sections cid).map
          (fun i => ((move_student sid F T sections sched).1.getD i
              default).enrollment) ≠ [] := by
        intro hcnil
        exact absurd (List.map_eq_nil_iff.1 hcnil ▸ hg ▸ hFg) (by simp [List.map_eq_nil_iff.1 hcnil])
      have h1 := listMax_le hub
      have h2 := le_listMin hne3 hlb
      rw [hmax_old, hmin_old]
      omega
    · have hlists : (courseGroup sections cid).map
            (fun i => ((move_student sid F T sections sched).1.getD i
                default).enrollment)
          = (courseGroup sections cid).map
            (fun i => (sections.getD i default).enrollment) := by
        apply List.map_congr_left
        intro i hi
        have hic := ((courseGroup_mem sections cid i).1 hi).2
        have hiF : i ≠ F := by
          intro hif
          rw [hif] at hic
          exact hc (hic.symm.trans hFcourse)
        have hiT : i ≠ T := by
          intro hit
          rw [hit] at hic
          exact hc (hic.symm.trans hTcourse)
        exact heO i hiF hiT
      rw [hlists]

theorem balanceCourse_optInv (orig sections : List Section)
    (sched : String → List Period) (flag : Bool) (g : List Nat) (cg : String)
    (hg : g = courseGroup orig cg)
    (hinv : OptInv orig (sections, sched)) :
    OptInv orig ((balanceCourse (sections, sched, flag) g).1,
      (balanceCourse (sections, sched, flag) g).2.1) := by
  obtain ⟨hlen, hcid, hcap, hnd, hcf, hspread⟩ := hinv
  have hgc : g = courseGroup sections cg := by
    rw [hg]
    exact (courseGroup_congr sections orig hlen hcid cg).symm
  rcases balanceCourse_cases sections sched flag g with heq |
    ⟨sid, F, T, hFg, hTg, hcm, hmem, hlt, hmax, hmin, heq⟩
  · rw [heq]
    exact ⟨hlen, hcid, hcap, hnd, hcf, hspread⟩
  · have hFT : F ≠ T := by
      intro hc
      rw [hc] at hlt
      omega
    rw [heq]
    dsimp only
    refine ⟨?_, ?_, ?_, ?_, ?_, ?_⟩
    · rw [move_student_length]
      exact hlen
    · intro i
      rw [move_course_id]
      exact hcid i
    · intro h
      exact move_capOk sid F T sections sched hcm hmem hFT (hcap h)
    · intro h
      exact move_nodup sid F T sections sched hcm hmem hFT (hnd h)
    · intro h
      obtain ⟨hcf1, hacc1⟩ := hcf h
      exact move_cf_acc sid F T sections sched hcm hmem hFT hcf1 hacc1
    · intro h cid
      have hstep := balanceCourse_spread sections sched flag g cg hgc (hnd h) cid
      rw [heq] at hstep
      exact le_trans hstep (hspread h cid)

theorem foldl_balanceCourse_optInv (orig : List Section) :
    ∀ (groups : List (List Nat)),
      (∀ g ∈ groups, ∃ cg, g = courseGroup orig cg) →
      ∀ (sections : List Section) (sched : String → List Period) (flag : Bool),
        OptInv orig (sections, sched) →
        OptInv orig ((groups.foldl balanceCourse (sections, sched, flag)).1,
          (groups.foldl balanceCourse (sections, sched, flag)).2.1) := by
  intro groups
  induction groups with
  | nil => intro _ sections sched flag h; exact h
  | cons g gs ih =>
    intro hgs sections sched flag h
    obtain ⟨cg, hcg⟩ := hgs g (List.mem_cons_self g gs)
    have hstep := balanceCourse_optInv orig sections sched flag g cg hcg h
    exact ih (fun g2 hg2 => hgs g2 (List.mem_cons_of_mem g hg2))
      (balanceCourse (sections, sched, flag) g).1
      (balanceCourse (sections, sched, flag) g).2.1
      (balanceCourse (sections, sched, flag) g).2.2 hstep

theorem balanceLoop_optInv (orig : List Section) (groups : List (List Nat))
    (hgs : ∀ g ∈ groups, ∃ cg, g = courseGroup orig cg) :
    ∀ (fuel : Nat) (sections : List Section) (sched : String → List Period),
      OptInv orig (sections, sched) →
      OptInv orig (balanceLoop groups fuel (sections, sched)) := by
  intro fuel
  induction fuel with
  | zero => intro sections sched h; exact h
  | succ n ih =>
    intro sections sched h
    have hr := foldl_balanceCourse_optInv orig groups hgs sections sched false h
    show OptInv orig
      (if (balanceRound groups (sections, sched)).2.2
       then balanceLoop groups n ((balanceRound groups (sections, sched)).1,
              (balanceRound groups (sections, sched)).2.1)
       else ((balanceRound groups (sections, sched)).1,
              (balanceRound groups (sections, sched)).2.1))
    split
    · exact ih _ _ hr
    · exact hr

theorem optimize_optInv (sections : List Section) (courseOrder : List String) :
    OptInv sections (balanceLoop (courseOrder.map (courseGroup sections)) 100
      (sections, buildSchedules sections)) := by
  apply balanceLoop_optInv
  · intro g hgm
    obtain ⟨cid, _, rfl⟩ := List.mem_map.1 hgm
    exact ⟨cid, rfl⟩
  · exact ⟨rfl, fun i => rfl, fun h => h, fun h => h,
      fun h => ⟨h, buildSchedules_accurate sections⟩, fun h cid => le_refl _⟩

theorem getD_map_range {α : Type} [Inhabited α] (f : Nat → α) (len k : Nat)
    (hk : k < len) : ((List.range len).map f).getD k default = f k := by
  rw [List.getD_eq_getElem?_getD, List.getElem?_map, List.getElem?_range hk]
  rfl

theorem extractUpTo_length (students : List Student) (courses : List Course)
    (sol : Nat → Nat → Bool) (sections : List Section) (n : Nat) :
    (extractUpTo students courses sol sections n).length = sections.length := by
  simp [extractUpTo]

theorem extractUpTo_getD (students : List Student) (courses : List Course)
    (sol : Nat → Nat → Bool) (sections : List Section) (n k : Nat)
    (hk : k < sections.length) :
    (extractUpTo students courses sol sections n).getD k default
      = { sections.getD k default with
          enrolled_students := (sections.getD k default).enrolled_students ++
            ((List.range n).filter
                (fun s => solAssign students sections courses sol s k)).map
              (fun s => (students.getD s default).id) } := by
  unfold extractUpTo
  rw [getD_map_range _ _ _ hk]

theorem nodupRosters_of_forall_mem (sections : List Section)
    (h : ∀ sec ∈ sections, sec.enrolled_students.Nodup) :
    NodupRosters sections := by
  intro i
  by_cases hi : i < sections.length
  · rw [getD_eq_getElem _ _ hi]
    exact h _ (List.getElem_mem hi)
  · rw [getD_of_length_le _ _ (Nat.le_of_not_lt hi)]
    exact List.nodup_nil

/-- C2: with a solver outcome satisfying the model's capacity constraints and
pipeline-shaped input (empty rosters at phase-4 entry), every section is
within capacity after phase 4, and stays so after phase 5 under any course
iteration order of the optimizer. -/
theorem c2_capacity_invariant (students : List Student) (courses : List Course)
    (sol : Nat → Nat → Bool) (sections : List Section)
    (hempty : ∀ sec ∈ sections, sec.enrolled_students = [])
    (hcap : capacityOk students sections courses sol) :
    CapOk (solve_student_assignment students courses sol sections).1
    ∧ ∀ courseOrder, CapOk (optimize_section_balance courseOrder
        (solve_student_assignment students courses sol sections).1) := by
  have hext : CapOk (extractUpTo students courses sol sections students.length) := by
    intro k
    by_cases hk : k < sections.length
    · rw [extractUpTo_getD students courses sol sections _ k hk]
      unfold Section.enrollment
      dsimp only
      have hkmem : sections.getD k default ∈ sections := by
        rw [getD_eq_getElem _ _ hk]
        exact List.getElem_mem hk
      rw [hempty _ hkmem]
      simpa using hcap k hk
    · rw [getD_of_length_le _ _ (by
        rw [extractUpTo_length]
        exact Nat.le_of_not_lt hk)]
      exact le_refl 0
  exact ⟨hext, fun courseOrder => (optimize_optInv _ courseOrder).2.2.1 hext⟩

/-- Closed witness for `c2_capacity_invariant`: two students competing for
one seat, a solution enrolling only the first. -/
theorem c2_capacity_invariant_witness :
    CapOk (solve_student_assignment
      [⟨"s1", "A", 10, ["math"], []⟩, ⟨"s2", "B", 10, ["math"], []⟩]
      [⟨"math", "Math", 1, 5, none, [], 1⟩]
      (fun s _ => s = 0)
      [⟨"math-1", "math", none, none, [(0, 0)], [], 1⟩]).1
    ∧ ∀ courseOrder, CapOk (optimize_section_balance courseOrder
        (solve_student_assignment
          [⟨"s1", "A", 10, ["math"], []⟩, ⟨"s2", "B", 10, ["math"], []⟩]
          [⟨"math", "Math", 1, 5, none, [], 1⟩]
          (fun s _ => s = 0)
          [⟨"math-1", "math", none, none, [(0, 0)], [], 1⟩]).1) :=
  c2_capacity_invariant
    [⟨"s1", "A", 10, ["math"], []⟩, ⟨"s2", "B", 10, ["math"], []⟩]
    [⟨"math", "Math", 1, 5, none, [], 1⟩]
    (fun s _ => s = 0)
    [⟨"math-1", "math", none, none, [(0, 0)], [], 1⟩]
    (by decide) (by unfold capacityOk; decide)

theorem extract_periods (students : List Student) (courses : List Course)
    (sol : Nat → Nat → Bool) (sections : List Section) (n : Nat) : ∀ k,
    ((extractUpTo students courses sol sections n).getD k default).periods
      = (sections.getD k default).periods := by
  intro k
  by_cases hk : k < sections.length
  · rw [extractUpTo_getD _ _ _ _ _ _ hk]
  · rw [getD_of_length_le _ _ (by
        rw [extractUpTo_length]
        exact Nat.le_of_not_lt hk),
      getD_of_length_le _ _ (Nat.le_of_not_lt hk)]

theorem extract_roster_mem (students : List Student) (courses : List Course)
    (sol : Nat → Nat → Bool) (sections : List Section) (n k : Nat) (sid : String)
    (hempty : ∀ sec ∈ sections, sec.enrolled_students = [])
    (hk : k < sections.length) :
    (sid ∈ ((extractUpTo students courses sol sections n).getD k
        default).enrolled_students)
    ↔ ∃ s, s < n ∧ solAssign students sections courses sol s k = true
        ∧ (students.getD s default).id = sid := by
  rw [extractUpTo_getD _ _ _ _ _ _ hk]
  dsimp only
  have hkmem : sections.getD k default ∈ sections := by
    rw [getD_eq_getElem _ _ hk]
    exact List.getElem_mem hk
  rw [hempty _ hkmem]
  simp only [List.nil_append, List.mem_map, List.mem_filter, List.mem_range]
  constructor
  · rintro ⟨s, ⟨hs, hsol⟩, rfl⟩
    exact ⟨s, hs, hsol, rfl⟩
  · rintro ⟨s, hs, hsol, rfl⟩
    exact ⟨s, ⟨hs, hsol⟩, rfl⟩

theorem nodup_ids_inj (students : List Student)
    (hids : (students.map Student.id).Nodup) (s1 s2 : Nat)
    (h1 : s1 < students.length) (h2 : s2 < students.length)
    (heq : (students.getD s1 default).id = (students.getD s2 default).id) :
    s1 = s2 := by
  have hb1 : s1 < (students.map Student.id).length := by simpa using h1
  have hb2 : s2 < (students.map Student.id).length := by simpa using h2
  have hmeq : (students.map Student.id)[s1] = (students.map Student.id)[s2] := by
    rw [List.getElem_map, List.getElem_map]
    rw [getD_eq_getElem _ _ h1, getD_eq_getElem _ _ h2] at heq
    exact heq
  exact (List.Nodup.getElem_inj_iff hids).1 hmeq

/-- C3: with a solver outcome satisfying the model's time-conflict
constraints, pipeline-shaped input (empty rosters) and unique student ids,
no student sits in two period-sharing sections after phase 4, nor after
phase 5 under any optimizer course order. -/
theorem c3_no_time_conflicts (students : List Student) (courses : List Course)
    (sol : Nat → Nat → Bool) (sections : List Section)
    (hempty : ∀ sec ∈ sections, sec.enrolled_students = [])
    (hids : (students.map Student.id).Nodup)
    (hconf : conflictOk students sections courses sol) :
    ConflictFree (solve_student_assignment students courses sol sections).1
    ∧ ∀ courseOrder, ConflictFree (optimize_section_balance courseOrder
        (solve_student_assignment students courses sol sections).1) := by
  have hcf : ConflictFree (extractUpTo students courses sol sections
      students.length) := by
    intro sid p i j hij hxi hxj hpi hpj
    have hi : i < sections.length := by
      have hr := roster_lt_length _ i sid hxi
      rwa [extractUpTo_length] at hr
    have hj : j < sections.length := by
      have hr := roster_lt_length _ j sid hxj
      rwa [extractUpTo_length] at hr
    rw [extract_roster_mem students courses sol sections _ i sid hempty hi] at hxi
    rw [extract_roster_mem students courses sol sections _ j sid hempty hj] at hxj
    obtain ⟨si, hsi, hsoli, hidi⟩ := hxi
    obtain ⟨sj, hsj, hsolj, hidj⟩ := hxj
    have hs : si = sj :=
      nodup_ids_inj students hids si sj hsi hsj (hidi.trans hidj.symm)
    subst hs
    rw [extract_periods] at hpi hpj
    have hov : ∀ a b, p ∈ (sections.getD a default).periods →
        p ∈ (sections.getD b default).periods →
        periodsOverlap sections a b = true := by
      intro a b hpa hpb
      unfold periodsOverlap
      rw [List.any_eq_true]
      exact ⟨p, hpa, by simpa using hpb⟩
    rcases Nat.lt_or_ge i j with hlt | hge
    · exact hconf si hsi j hj i hlt (hov i j hpi hpj) ⟨hsoli, hsolj⟩
    · have hlt2 : j < i := Nat.lt_of_le_of_ne hge (fun hc => hij hc.symm)
      exact hconf si hsi i hi j hlt2 (hov j i hpj hpi) ⟨hsolj, hsoli⟩
  exact ⟨hcf, fun courseOrder =>
    ((optimize_optInv _ courseOrder).2.2.2.2.1 hcf).1⟩

/-- Closed witness for `c3_no_time_conflicts`: one student wanting two
courses whose sections share a slot, a solution enrolling only the first. -/
theorem c3_no_time_conflicts_witness :
    ConflictFree (solve_student_assignment
      [⟨"s1", "A", 10, ["math", "eng"], []⟩]
      [⟨"math", "Math", 30, 5, none, [], 1⟩, ⟨"eng", "English", 30, 5, none, [], 1⟩]
      (fun _ k => k = 0)
      [⟨"math-1", "math", none, none, [(0, 0)], [], 30⟩,
       ⟨"eng-1", "eng", none, none, [(0, 0)], [], 30⟩]).1
    ∧ ∀ courseOrder, ConflictFree (optimize_section_balance courseOrder
        (solve_student_assignment
          [⟨"s1", "A", 10, ["math", "eng"], []⟩]
          [⟨"math", "Math", 30, 5, none, [], 1⟩,
           ⟨"eng", "English", 30, 5, none, [], 1⟩]
          (fun _ k => k = 0)
          [⟨"math-1", "math", none, none, [(0, 0)], [], 30⟩,
           ⟨"eng-1", "eng", none, none, [(0, 0)], [], 30⟩]).1) :=
  c3_no_time_conflicts
    [⟨"s1", "A", 10, ["math", "eng"], []⟩]
    [⟨"math", "Math", 30, 5, none, [], 1⟩, ⟨"eng", "English", 30, 5, none, [], 1⟩]
    (fun _ k => k = 0)
    [⟨"math-1", "math", none, none, [(0, 0)], [], 30⟩,
     ⟨"eng-1", "eng", none, none, [(0, 0)], [], 30⟩]
    (by decide) (by decide) (by unfold conflictOk; decide)

/-- C9 (amended): on rosters without duplicate ids — which phase-4 output
always produces — `optimize_section_balance` never increases any course's
max−min enrollment, whatever course iteration order the `HashMap` yields. -/
theorem c9_balance_monotone (sections : List Section)
    (hnd : NodupRosters sections) (courseOrder : List String) (cid : String) :
    spread (optimize_section_balance courseOrder sections) cid
      ≤ spread sections cid :=
  (optimize_optInv sections courseOrder).2.2.2.2.2 hnd cid

/-- Closed witness for `c9_balance_monotone`: six students in one of two
open sections of the same course. -/
theorem c9_balance_monotone_witness :
    spread (optimize_section_balance ["math"]
      [⟨"math-1", "math", none, none, [(0, 0)], ["a", "b", "c", "d", "e", "f"], 30⟩,
       ⟨"math-2", "math", none, none, [(0, 1)], [], 30⟩]) "math"
    ≤ spread
      [⟨"math-1", "math", none, none, [(0, 0)], ["a", "b", "c", "d", "e", "f"], 30⟩,
       ⟨"math-2", "math", none, none, [(0, 1)], [], 30⟩] "math" :=
  c9_balance_monotone
    [⟨"math-1", "math", none, none, [(0, 0)], ["a", "b", "c", "d", "e", "f"], 30⟩,
     ⟨"math-2", "math", none, none, [(0, 1)], [], 30⟩]
    (nodupRosters_of_forall_mem _ (by decide)) ["math"] "math"

/-- C9 counterexample: on an input whose largest section's roster repeats one
student id four times, the optimizer's single "move" removes all four copies
at once and the final imbalance of course `c` exceeds the initial one, so the
claim is false for arbitrary input section lists. -/
theorem c9_counterexample_duplicate_roster :
    ¬ (spread (optimize_section_balance ["c", "d"]
        [⟨"B", "c", none, none, [(0, 1)], ["y"], 30⟩,
         ⟨"C", "c", none, none, [(0, 2)], ["u1", "u2", "u3", "u4"], 30⟩,
         ⟨"A", "c", none, none, [(0, 0)], ["x", "x", "x", "x"], 30⟩,
         ⟨"D", "d", none, none, [(0, 0)], ["u1", "u2", "u3", "u4"], 30⟩]) "c"
      ≤ spread
        [⟨"B", "c", none, none, [(0, 1)], ["y"], 30⟩,
         ⟨"C", "c", none, none, [(0, 2)], ["u1", "u2", "u3", "u4"], 30⟩,
         ⟨"A", "c", none, none, [(0, 0)], ["x", "x", "x", "x"], 30⟩,
         ⟨"D", "d", none, none, [(0, 0)], ["u1", "u2", "u3", "u4"], 30⟩] "c") := by
  decide

/-- C4: a decision variable `x[s,k]` exists iff student `s`'s required or
elective courses contain section `k`'s course and `s`'s grade passes that
course's restriction; its objective weight is 1000 for a required course and
`10 − min(rank, 9)` for an elective at 0-based rank `rank`. -/
theorem c4_variables_and_weights (students : List Student)
    (sections : List Section) (courses : List Course) (s k : Nat) (c : Course)
    (hc : mapLookup Course.id courses (sections.getD k default).course_id
      = some c) :
    (varExists students sections courses s k = true ↔
      (((sections.getD k default).course_id
          ∈ (students.getD s default).required_courses
        ∨ (sections.getD k default).course_id
          ∈ (students.getD s default).elective_preferences)
       ∧ c.allows_grade (students.getD s default).grade = true))
    ∧ ((sections.getD k default).course_id
        ∈ (students.getD s default).required_courses →
        objWeight students sections s k = 1000)
    ∧ (∀ r, (sections.getD k default).course_id
          ∉ (students.getD s default).required_courses →
        (students.getD s default).elective_rank
            ((sections.getD k default).course_id) = some r →
        objWeight students sections s k = 10 - min r 9) := by
  refine ⟨?_, ?_, ?_⟩
  · unfold varExists
    dsimp only
    rw [hc]
    simp [Student.wants_course]
  · intro hmem
    unfold objWeight
    dsimp only
    rw [if_pos (by simpa using hmem)]
  · intro r hnmem hrank
    unfold objWeight
    dsimp only
    rw [if_neg (by simpa using hnmem), hrank]

/-- Closed witness for `c4_variables_and_weights`: a required course gives
weight 1000, an elective at rank 0 gives weight 10. -/
theorem c4_variables_and_weights_witness :
    objWeight [⟨"s1", "A", 10, ["math"], []⟩]
      [⟨"math-1", "math", none, none, [], [], 30⟩] 0 0 = 1000
    ∧ objWeight [⟨"s2", "B", 10, [], ["art"]⟩]
      [⟨"art-1", "art", none, none, [], [], 30⟩] 0 0 = 10 - min 0 9 :=
  ⟨(c4_variables_and_weights [⟨"s1", "A", 10, ["math"], []⟩]
      [⟨"math-1", "math", none, none, [], [], 30⟩]
      [⟨"math", "Math", 30, 5, none, [], 1⟩] 0 0
      ⟨"math", "Math", 30, 5, none, [], 1⟩ (by decide)).2.1 (by decide),
   (c4_variables_and_weights [⟨"s2", "B", 10, [], ["art"]⟩]
      [⟨"art-1", "art", none, none, [], [], 30⟩]
      [⟨"art", "Art", 30, 5, none, [], 1⟩] 0 0
      ⟨"art", "Art", 30, 5, none, [], 1⟩ (by decide)).2.2 0 (by decide) (by decide)⟩

theorem filter_flatMap_length {α β : Type} (f : α → List β) (p : β → Bool) :
    ∀ (ns : List α),
      ((ns.flatMap f).filter p).length
        = (ns.map (fun a => ((f a).filter p).length)).sum := by
  intro ns
  induction ns with
  | nil => rfl
  | cons a xs ih =>
    simp only [List.flatMap_cons, List.filter_append, List.length_append,
      List.map_cons, List.sum_cons, ih]

theorem sum_map_zero_except (f : Nat → Nat) :
    ∀ (ns : List Nat) (s : Nat), s ∈ ns → ns.Nodup →
      (∀ x ∈ ns, x ≠ s → f x = 0) → (ns.map f).sum = f s := by
  intro ns
  induction ns with
  | nil => intro s hs; simp at hs
  | cons a xs ih =>
    intro s hs hnd hz
    rcases List.mem_cons.1 hs with rfl | hs2
    · simp only [List.map_cons, List.sum_cons]
      have hrest : (xs.map f).sum = 0 := by
        apply List.sum_eq_zero
        intro x hx
        obtain ⟨y, hy, rfl⟩ := List.mem_map.1 hx
        refine hz y (List.mem_cons_of_mem _ hy) ?_
        intro hc
        exact (List.nodup_cons.1 hnd).1 (hc ▸ hy)
      omega
    · simp only [List.map_cons, List.sum_cons]
      have ha : f a = 0 := by
        refine hz a (List.mem_cons_self _ _) ?_
        intro hc
        exact (List.nodup_cons.1 hnd).1 (hc ▸ hs2)
      rw [ha, ih s hs2 (List.nodup_cons.1 hnd).2
        (fun x hx hxs => hz x (List.mem_cons_of_mem _ hx) hxs)]
      omega

theorem entriesFor_filter_other (students : List Student) (courses : List Course)
    (sol : Nat → Nat → Bool) (sections : List Section) (s2 : Nat)
    (idS cid : String) (hne : (students.getD s2 default).id ≠ idS) :
    ((unassignedEntriesFor students courses sol sections s2).filter
        (fun e => e.student_id == idS && e.course_id == cid)).length = 0 := by
  unfold unassignedEntriesFor
  dsimp only
  rw [List.length_eq_zero, List.filter_eq_nil_iff]
  intro e he
  obtain ⟨cid2, _, rfl⟩ := List.mem_map.1 he
  rw [List.getD_eq_getElem?_getD] at hne
  simp [hne]

theorem entriesFor_filter_self (students : List Student) (courses : List Course)
    (sol : Nat → Nat → Bool) (sections : List Section) (s : Nat) (cid : String)
    (hreqnd : (students.getD s default).required_courses.Nodup)
    (hcid : cid ∈ (students.getD s default).required_courses) :
    ((unassignedEntriesFor students courses sol sections s).filter
        (fun e => e.student_id == (students.getD s default).id
          && e.course_id == cid)).length
      = if (extractUpTo students courses sol sections (s + 1)).any
            (fun sec => sec.course_id = cid
              && sec.enrolled_students.contains (students.getD s default).id)
        then 0 else 1 := by
  unfold unassignedEntriesFor
  dsimp only
  rw [List.filter_map]
  rw [List.length_map]
  rw [List.filter_congr (q := fun cid2 => cid2 == cid) (by
    intro cid2 _
    simp)]
  have hcnt : (((students.getD s default).required_courses.filter
      (fun cid2 => !((extractUpTo students courses sol sections (s + 1)).any
          (fun sec => sec.course_id = cid2
            && sec.enrolled_students.contains (students.getD s default).id)))).filter
      (fun cid2 => cid2 == cid)).length
      = ((students.getD s default).required_courses.filter
        (fun cid2 => !((extractUpTo students courses sol sections (s + 1)).any
            (fun sec => sec.course_id = cid2
              && sec.enrolled_students.contains
                (students.getD s default).id)))).count cid := by
    rw [← List.countP_eq_length_filter]
    rfl
  rw [hcnt]
  by_cases hany : (extractUpTo students courses sol sections (s + 1)).any
      (fun sec => sec.course_id = cid
        && sec.enrolled_students.contains (students.getD s default).id) = true
  · rw [if_pos hany]
    apply List.count_eq_zero.2
    intro hc
    have hmf := (List.mem_filter.1 hc).2
    rw [hany] at hmf
    exact Bool.noConfusion hmf
  · rw [if_neg hany]
    rw [List.count_filter (by
      simp only [Bool.not_eq_true] at hany
      rw [hany]
      rfl)]
    exact List.count_eq_one_of_mem hreqnd hcid

/-- C5 (amended): for each student and each required course with no
enrollment, `solve_student_assignment` appends exactly one unassigned entry,
whose reason is produced by the priority-ordered check (grade restriction,
then no sections, then all full, then time conflict, then unknown); entries
are only ever emitted for required courses; and a grade-10 student barred
from a course restricted to grade 12 gets the reason string
`"Grade 10 not allowed (restricted to Some([12]))"` (Rust's `{:?}` rendering
of the `Option<Vec<u8>>`). -/
theorem c5_unassigned_diagnosis (students : List Student) (courses : List Course)
    (sol : Nat → Nat → Bool) (sections : List Section)
    (hids : (students.map Student.id).Nodup)
    (hreq : ∀ st ∈ students, st.required_courses.Nodup) :
    (∀ s, s < students.length →
      ∀ cid ∈ (students.getD s default).required_courses,
      ((computeUnassigned students courses sol sections).filter
          (fun e => e.student_id == (students.getD s default).id
            && e.course_id == cid)).length
        = if (extractUpTo students courses sol sections (s + 1)).any
              (fun sec => sec.course_id = cid
                && sec.enrolled_students.contains (students.getD s default).id)
          then 0 else 1)
    ∧ (∀ e ∈ computeUnassigned students courses sol sections,
        ∃ s, s < students.length
          ∧ e.student_id = (students.getD s default).id
          ∧ e.course_id ∈ (students.getD s default).required_courses
          ∧ e.reason = determine_unassigned_reason (students.getD s default)
              e.course_id (extractUpTo students courses sol sections (s + 1))
              courses)
    ∧ (∀ (student : Student) (cid : String) (secs : List Section) (c : Course),
        mapLookup Course.id courses cid = some c →
        c.allows_grade student.grade = false →
        determine_unassigned_reason student cid secs courses
          = "Grade " ++ toString student.grade ++ " not allowed (restricted to "
            ++ formatGradeRestrictions c.grade_restrictions ++ ")")
    ∧ (∀ (student : Student) (cid : String) (secs : List Section),
        (∀ c, mapLookup Course.id courses cid = some c →
          c.allows_grade student.grade = true) →
        ((¬ ∃ sec ∈ secs, sec.course_id = cid) →
            determine_unassigned_reason student cid secs courses
              = "No sections available")
        ∧ ((∃ sec ∈ secs, sec.course_id = cid) →
            (∀ sec ∈ secs, sec.course_id = cid → sec.is_full = true) →
            determine_unassigned_reason student cid secs courses
              = "All sections at capacity")
        ∧ ((∃ sec ∈ secs, sec.course_id = cid ∧ sec.is_full = false) →
            (∀ sec ∈ secs, sec.course_id = cid → sec.is_full = false →
              ∃ p ∈ sec.periods, ∃ sec2 ∈ secs,
                sec2.enrolled_students.contains student.id = true
                ∧ p ∈ sec2.periods) →
            determine_unassigned_reason student cid secs courses
              = "Time conflict with other courses")
        ∧ ((∃ sec ∈ secs, sec.course_id = cid ∧ sec.is_full = false
              ∧ ∀ p ∈ sec.periods, ¬ ∃ sec2 ∈ secs,
                sec2.enrolled_students.contains student.id = true
                ∧ p ∈ sec2.periods) →
            determine_unassigned_reason student cid secs courses
              = "Unknown reason")) := by
  refine ⟨?_, ?_, ?_, ?_⟩
  · intro s hs cid hcid
    unfold computeUnassigned
    rw [filter_flatMap_length]
    have hz : ∀ x ∈ List.range students.length, x ≠ s →
        (fun s2 => ((unassignedEntriesFor students courses sol sections s2).filter
          (fun e => e.student_id == (students.getD s default).id
            && e.course_id == cid)).length) x = 0 := by
      intro x hx hxs
      apply entriesFor_filter_other
      intro heq
      exact hxs (nodup_ids_inj students hids x s (List.mem_range.1 hx) hs heq)
    rw [sum_map_zero_except
      (fun s2 => ((unassignedEntriesFor students courses sol sections s2).filter
        (fun e => e.student_id == (students.getD s default).id
          && e.course_id == cid)).length)
      (List.range students.length) s (List.mem_range.2 hs)
      (List.nodup_range _) hz]
    have hsmem : students.getD s default ∈ students := by
      rw [getD_eq_getElem _ _ hs]
      exact List.getElem_mem hs
    exact entriesFor_filter_self students courses sol sections s cid
      (hreq _ hsmem) hcid
  · intro e he
    unfold computeUnassigned at he
    rw [List.mem_flatMap] at he
    obtain ⟨s, hsr, hin⟩ := he
    unfold unassignedEntriesFor at hin
    dsimp only at hin
    obtain ⟨cid2, hcid2, rfl⟩ := List.mem_map.1 hin
    exact ⟨s, List.mem_range.1 hsr, rfl, List.mem_of_mem_filter hcid2, rfl⟩
  · intro student cid secs c hlook hfalse
    unfold determine_unassigned_reason
    rw [hlook]
    dsimp only
    rw [if_neg (by simp [hfalse])]
  · intro student cid secs hok
    have htail : determine_unassigned_reason student cid secs courses
        = unassignedTail student cid secs := by
      unfold determine_unassigned_reason
      cases hlook : mapLookup Course.id courses cid with
      | none => rfl
      | some c =>
        dsimp only
        rw [if_pos (hok c hlook)]
    have hsp : ∀ p : Period, (p ∈ (secs.filter
        (fun s2 => s2.enrolled_students.contains student.id)).flatMap
          (fun s2 => s2.periods)) ↔
        ∃ sec2 ∈ secs, sec2.enrolled_students.contains student.id = true
          ∧ p ∈ sec2.periods := by
      intro p
      simp only [List.mem_flatMap, List.mem_filter]
      constructor
      · rintro ⟨a, ⟨ha, hm⟩, hp⟩
        exact ⟨a, ha, hm, hp⟩
      · rintro ⟨a, ha, hm, hp⟩
        exact ⟨a, ⟨ha, hm⟩, hp⟩
    refine ⟨?_, ?_, ?_, ?_⟩
    · intro hno
      rw [htail]
      unfold unassignedTail
      dsimp only
      rw [if_pos (by
        rw [List.isEmpty_iff, List.filter_eq_nil_iff]
        intro a ha
        simp only [decide_eq_true_eq]
        exact fun hc => hno ⟨a, ha, hc⟩)]
    · intro hex hall
      obtain ⟨sec, hsec, hcideq⟩ := hex
      rw [htail]
      unfold unassignedTail
      dsimp only
      have hmemf : sec ∈ secs.filter (fun s2 => s2.course_id = cid) :=
        List.mem_filter.2 ⟨hsec, by simpa using hcideq⟩
      rw [if_neg (by
        rw [List.isEmpty_iff]
        intro hc
        rw [hc] at hmemf
        simp at hmemf)]
      rw [if_pos (by
        rw [List.all_eq_true]
        intro sec2 hsec2
        have h2 := List.mem_filter.1 hsec2
        exact hall sec2 h2.1 (by simpa using h2.2))]
    · intro hex hcon
      obtain ⟨sec, hsec, hcideq, hfull⟩ := hex
      rw [htail]
      unfold unassignedTail
      dsimp only
      have hmemf : sec ∈ secs.filter (fun s2 => s2.course_id = cid) :=
        List.mem_filter.2 ⟨hsec, by simpa using hcideq⟩
      rw [if_neg (by
        rw [List.isEmpty_iff]
        intro hc
        rw [hc] at hmemf
        simp at hmemf)]
      rw [if_neg (by
        intro hall
        have h2 := List.all_eq_true.1 hall sec hmemf
        rw [hfull] at h2
        exact Bool.noConfusion h2)]
      rw [if_neg (by
        intro hany
        obtain ⟨sec2, hsec2, hp⟩ := List.any_eq_true.1 hany
        have h2 := List.mem_filter.1 hsec2
        rw [Bool.and_eq_true] at hp
        obtain ⟨hnf, hallp⟩ := hp
        obtain ⟨p, hpmem, occ⟩ := hcon sec2 h2.1 (by simpa using h2.2)
          (by simpa using hnf)
        have h3 := List.all_eq_true.1 hallp p hpmem
        rw [Bool.not_eq_eq_eq_not, Bool.not_true, ← Bool.not_eq_true] at h3
        apply h3
        rw [contains_iff_mem]
        exact (hsp p).2 occ)]
    · intro hex
      obtain ⟨sec, hsec, hcideq, hfull, hnoc⟩ := hex
      rw [htail]
      unfold unassignedTail
      dsimp only
      have hmemf : sec ∈ secs.filter (fun s2 => s2.course_id = cid) :=
        List.mem_filter.2 ⟨hsec, by simpa using hcideq⟩
      rw [if_neg (by
        rw [List.isEmpty_iff]
        intro hc
        rw [hc] at hmemf
        simp at hmemf)]
      rw [if_neg (by
        intro hall
        have h2 := List.all_eq_true.1 hall sec hmemf
        rw [hfull] at h2
        exact Bool.noConfusion h2)]
      rw [if_pos (by
        rw [List.any_eq_true]
        refine ⟨sec, hmemf, ?_⟩
        rw [Bool.and_eq_true]
        refine ⟨by simp [hfull], ?_⟩
        rw [List.all_eq_true]
        intro p hp
        have hno := hnoc p hp
        simp only [Bool.not_eq_eq_eq_not, Bool.not_true, ← Bool.not_eq_true]
        intro hc
        rw [contains_iff_mem] at hc
        exact hno ((hsp p).1 hc))]

/-- C5 counterexample: the grade-restriction reason is rendered with Rust's
`{:?}` on the whole `Option<Vec<u8>>`, so the grade-10 student barred from
the grade-12 course gets `"… restricted to Some([12]) …"`, not the
`"… restricted to [12] …"` the claim states. -/
theorem c5_grade_reason_string_counterexample :
    ((computeUnassigned
        [⟨"s1", "A", 10, ["gov"], []⟩]
        [⟨"gov", "Government", 30, 5, some [12], [], 1⟩]
        (fun _ _ => false)
        [⟨"gov-1", "gov", none, none, [(0, 0)], [], 30⟩]).map
      UnassignedCourse.reason)
      = ["Grade 10 not allowed (restricted to Some([12]))"]
    ∧ "Grade 10 not allowed (restricted to Some([12]))"
      ≠ "Grade 10 not allowed (restricted to [12])" := by
  constructor
  · decide
  · decide

/-- Closed witness for `c5_unassigned_diagnosis`: the exact reason string of
the grade-restriction branch at the concrete grade-10/grade-12 instance. -/
theorem c5_unassigned_diagnosis_witness :
    determine_unassigned_reason ⟨"s1", "A", 10, ["gov"], []⟩ "gov"
        [⟨"gov-1", "gov", none, none, [(0, 0)], [], 30⟩]
        [⟨"gov", "Government", 30, 5, some [12], [], 1⟩]
      = "Grade 10 not allowed (restricted to Some([12]))" := by
  have h := (c5_unassigned_diagnosis
      [⟨"s1", "A", 10, ["gov"], []⟩]
      [⟨"gov", "Government", 30, 5, some [12], [], 1⟩]
      (fun _ _ => false)
      [⟨"gov-1", "gov", none, none, [(0, 0)], [], 30⟩]
      (by decide) (by decide)).2.2.1
    ⟨"s1", "A", 10, ["gov"], []⟩ "gov"
    [⟨"gov-1", "gov", none, none, [(0, 0)], [], 30⟩]
    ⟨"gov", "Government", 30, 5, some [12], [], 1⟩
    (by decide) (by decide)
  rw [h]
  decide

end SchoolSched
